import Mathlib

/-!
# Verification of `combojsonapi.permission.permission_plugin`

A shallow embedding of `src/combojsonapi/permission/permission_plugin.py`
(the `PermissionPlugin` of the ComboJSONAPI project) together with proofs
about the behaviour of its query rewriter, schema pruner and route
interceptor.

Conventions used throughout:
* Python strings are Lean `String`s; `str.split(".")` is `pySplit · '.'`
  (both return `[""]` on the empty string, and never return an empty list).
* Python `list(set(a) & set(b))` produces an arbitrarily ordered,
  deduplicated list; we model it as `(a.filter (· ∈ b)).dedup`.  Every
  downstream use in the plugin is a set-level use (membership /
  intersection / union), so the choice of order is unobservable.
* Python exceptions are modelled with `Except PyErr`.
* SQLAlchemy / marshmallow / flask-combo-jsonapi objects that the plugin
  manipulates (queries, query-string managers, schemas, models) are
  modelled as explicit first-order data, with each externally supplied
  operation modelled from the spec (each such definition carries a
  doc comment saying so).
-/

namespace ComboJsonApi

/-- Errors that can escape the plugin's helpers.  `invalidInclude` is the
`InvalidInclude` exception of flask-combo-jsonapi; `valueError` is a Python
`ValueError`; `indexError` models a Python `IndexError` from list
indexing; `otherError` covers the remaining exception classes raised by the
external collaborators (marshmallow / SQLAlchemy lookup failures). -/
inductive PyErr where
  | invalidInclude (msg : String)
  | valueError (msg : String)
  | indexError
  | otherError (msg : String)
  deriving Repr, DecidableEq

/-- `str(e)` for the modelled exceptions: the carried message. -/
def PyErr.str : PyErr → String
  | .invalidInclude m => m
  | .valueError m => m
  | .indexError => "list index out of range"
  | .otherError m => m

/-- Python's `str.split(sep)` on a character list, for a one-character
separator: splitting never yields the empty list, and the empty input
yields `[[]]`, exactly like `"".split(".") == [""]`.  (Lean's own
`String.splitOn` agrees but is defined by well-founded recursion, which
concrete witnesses cannot evaluate inside the kernel.) -/
def splitChar (c : Char) : List Char → List (List Char)
  | [] => [[]]
  | ch :: rest =>
    match splitChar c rest with
    | [] => [[]]
    | h :: t => if ch = c then [] :: h :: t else (ch :: h) :: t

/-- Python `s.split(c)` for a single-character separator. -/
def pySplit (s : String) (c : Char) : List String :=
  (splitChar c s.data).map (fun l => ⟨l⟩)

/-- Python `c in s` for a single character (`String.contains`, made
kernel-reducible). -/
def pyContains (s : String) (c : Char) : Bool :=
  s.data.contains c

/-- One SQLAlchemy model class, as the plugin observes it:
* `scalarColumns` — the attribute names that `get_columns_for_query`
  returns (attributes whose `prop` is a `ColumnProperty`);
* `tableColumns` — `model.__table__.columns.keys()` (database column
  names, used by `data_layer_get_object_update_query`);
* `relationships` — relationship attribute name ↦ name of
  `attr.mapper.class_`, the related model;
* `requiredFields` — the model's `Meta.required_fields` dictionary. -/
structure ModelInfo where
  scalarColumns : List String
  tableColumns : List String
  relationships : List (String × String)
  requiredFields : List (String × List String)
  deriving Repr, DecidableEq, Inhabited

/-- One marshmallow schema class, as the plugin observes it:
* `typeName` — `Meta.type_`;
* `declaredFieldKeys` — the keys of `_declared_fields`;
* `modelField` — the map behind `get_model_field` (schema field name ↦
  model attribute name);
* `relatedSchema` — the map behind `get_related_schema` (relationship
  field name ↦ name of the related schema class). -/
structure SchemaInfo where
  typeName : String
  declaredFieldKeys : List String
  modelField : List (String × String)
  relatedSchema : List (String × String)
  deriving Repr, DecidableEq, Inhabited

/-- The static environment: model classes and schema classes by name. -/
structure Env where
  models : List (String × ModelInfo)
  schemas : List (String × SchemaInfo)
  deriving Repr, DecidableEq, Inhabited

def Env.model (env : Env) (name : String) : ModelInfo :=
  (env.models.lookup name).getD default

def Env.schema (env : Env) (name : String) : SchemaInfo :=
  (env.schemas.lookup name).getD default

/-- `get_columns_for_query(model)`: the attribute names of the model whose
values are `Column`/`InstrumentedAttribute` with a `ColumnProperty` prop.
In the embedding the iteration over `model.__dict__` is pre-computed into
`ModelInfo.scalarColumns`. -/
def get_columns_for_query (m : ModelInfo) : List String :=
  m.scalarColumns

/-!
## `get_required_fields` (permission_plugin.py lines 42–56)

The Python function recurses through `Meta.required_fields` with no
termination guard; the embedding adds an explicit `fuel` argument, and the
theorems below show that when the dependency graph is acyclic (witnessed by
a rank function) the result is independent of any sufficiently large fuel
and computes exactly the transitive required-field closure.
-/

/-- Lines 50–56 of the source, with explicit fuel:
`found_fields = required_fields[field_name] ++` the recursive expansion of
each of those fields, or `[]` when `field_name` has no entry. -/
def getRequiredFieldsAux (rf : List (String × List String)) :
    Nat → String → List String
  | 0, _ => []
  | fuel + 1, fieldName =>
    match rf.lookup fieldName with
    | none => []
    | some deps => deps ++ deps.flatMap (getRequiredFieldsAux rf fuel)

/-- `get_required_fields(field_name, model)` with explicit fuel. -/
def get_required_fields (fuel : Nat) (fieldName : String) (m : ModelInfo) :
    List String :=
  getRequiredFieldsAux m.requiredFields fuel fieldName

/-- The dependency edge relation of `Meta.required_fields`:
`ReqEdge rf a b` iff `b` is listed among the fields required by `a`. -/
def ReqEdge (rf : List (String × List String)) (a b : String) : Prop :=
  ∃ deps, rf.lookup a = some deps ∧ b ∈ deps

/-- Transitive reachability through `required_fields`: the fields that the
closure of `a` must contain. -/
inductive ReqReaches (rf : List (String × List String)) : String → String → Prop
  | base {a b : String} : ReqEdge rf a b → ReqReaches rf a b
  | step {a b c : String} : ReqEdge rf a b → ReqReaches rf b c → ReqReaches rf a c

/-!
## Query-string state (`QueryStringManager`)

The plugin reads and rewrites `qs.qs` (the parsed query-string parameters,
a mapping key ↦ raw value).  The container itself lives in
flask-combo-jsonapi, outside this repository's sources, so the accessors
are modelled from the spec.
-/

/-- The query-string manager's parameter dictionary (`qs.qs`).  Keys are
unique, insertion-ordered, exactly as a Python `dict`. -/
structure QSState where
  qs : List (String × String)
  deriving Repr, DecidableEq, Inhabited

/-- Python `dict` assignment `d[k] = v`: replace the entry for `k` in
place, or append a fresh entry when the key is new. -/
def setKey : List (String × String) → String → String → List (String × String)
  | [], k, v => [(k, v)]
  | p :: rest, k, v => if p.1 = k then (k, v) :: rest else p :: setKey rest k v

/-- Modelled from the spec: `qs.fields.get(type_)` of the external
`QueryStringManager` — field selection arrives as
`fields[<entityType>]=<comma-separated names>`, so the requested names for
a type are the comma-split value of the `fields[<type>]` parameter, when
present. -/
def QSState.fieldsGet (qs : QSState) (t : String) : Option (List String) :=
  (qs.qs.lookup ("fields[" ++ t ++ "]")).map (fun v => pySplit v ',')

/-- Modelled from the spec: `qs.include` of the external
`QueryStringManager` — relationship inclusion arrives as
`include=<dotted.path>,<dotted.path>`; an absent or empty parameter means
no includes. -/
def QSState.includeList (qs : QSState) : List String :=
  match qs.qs.lookup "include" with
  | some v => if v ≠ "" then pySplit v ',' else []
  | none => []

/-- `_update_qs_fields` (permission_plugin.py lines 483–505).

* `old_fields = qs._get_key_values("fields")`: membership of `type_schema`
  is the presence of the `fields[<type_schema>]` parameter, its value the
  comma-split raw value (`QSState.fieldsGet`).
* `new_fields`: the requested names intersected with the accessible
  `fields` when the type was requested, else the accessible `fields`
  (Python `list(set(..) & set(..))` is modelled as ordered filter +
  `dedup`).
* `new_qs` drops parameters with empty values.
* The Python guard is `not new_fields and include and name_foreign_key in
  include`; `include` (a `str.split(",")` result) is never the empty list,
  so the middle conjunct is vacuous and is omitted here. -/
def update_qs_fields (typeSchema : String) (flds : List String)
    (qs : QSState) (nameForeignKey : String) : QSState :=
  let newFields :=
    match qs.fieldsGet typeSchema with
    | some old => (old.filter (· ∈ flds)).dedup
    | none => flds
  let newQs := qs.qs.filter (fun p => p.2 ≠ "")
  let includeL := pySplit ((newQs.lookup "include").getD "") ','
  if newFields = [] ∧ nameForeignKey ∈ includeL then
    ⟨setKey newQs "include"
      (String.intercalate "," (includeL.filter (· ≠ nameForeignKey)))⟩
  else
    ⟨setKey newQs ("fields[" ++ typeSchema ++ "]")
      (String.intercalate "," newFields)⟩

/-!
## Permission descriptors

`PermissionUser` / `PermissionForGet` live in
`combojsonapi.permission.permission_system`, which is not among the
sources; they are modelled from the spec.
-/

/-- Modelled from the spec: the Access Descriptor (`PermissionForGet`) for
one entity type — `{columns: set, joins: ordered list of join specs,
filters: list of predicates}`.  Join specs and filter predicates are
opaque tokens; the plugin only passes them to `query.join` /
`query.filter`. -/
structure PermissionForGet where
  columns : List String
  joins : List (List String)
  filters : List String
  deriving Repr, DecidableEq, Inhabited

/-- Modelled from the spec: the per-request Permission Resolver
(`PermissionUser`); `permission_for_get(model)` yields the Access
Descriptor for a model, lazily computed and memoised per entity type.  An
entity type with no registered rules resolves to the empty (unrestricted)
descriptor. -/
structure PermissionUser where
  perms : List (String × PermissionForGet)
  deriving Repr, DecidableEq, Inhabited

def PermissionUser.permission_for_get (p : PermissionUser) (model : String) :
    PermissionForGet :=
  (p.perms.lookup model).getD ⟨[], [], []⟩

/-!
## Model / schema lookup helpers of the plugin
-/

/-- Modelled from the spec: `get_model_field(schema, field)` of
flask-combo-jsonapi — the model attribute a schema field maps onto; a
field absent from the schema raises an exception whose message the plugin
wraps. -/
def get_model_field (env : Env) (schemaName field : String) :
    Except PyErr String :=
  match (env.schema schemaName).modelField.lookup field with
  | some f => .ok f
  | none => .error (.otherError (schemaName ++ " has no attribute " ++ field))

/-- Modelled from the spec: `get_related_schema(schema, field)` of
flask-combo-jsonapi, combined with the class-registry resolution performed
by `_get_schema` (permission_plugin.py lines 537–552) — the related schema
class a relationship/nested field points at. -/
def get_schema (env : Env) (schemaName field : String) : Except PyErr String :=
  match (env.schema schemaName).relatedSchema.lookup field with
  | some s => .ok s
  | none => .error (.otherError (schemaName ++ " has no related schema for " ++ field))

/-- One step of `_get_model`'s loop: `getattr(mapper, seg)` followed by
`.mapper.class_`.  A relationship attribute yields the related model; an
attribute that exists but is not a relationship makes `.mapper` fail
(modelled as `otherError`); an absent attribute raises the source's
`ValueError` (note the original's misspelling is kept verbatim). -/
def get_model_step (env : Env) (mapper seg : String) : Except PyErr String :=
  match (env.model mapper).relationships.lookup seg with
  | some tgt => .ok tgt
  | none =>
    if seg ∈ (env.model mapper).scalarColumns then
      .error (.otherError ("no attribute mapper on " ++ seg))
    else
      .error (.valueError ("Not foreign ket " ++ seg ++ " in mapper " ++ mapper))

/-- `_get_model` (permission_plugin.py lines 450–466): follow each
dot-separated component of the foreign-key name through the mappers. -/
def get_model (env : Env) (model nameForeignKey : String) :
    Except PyErr String :=
  (pySplit nameForeignKey '.').foldlM (get_model_step env) model

/-- `_is_access_foreign_key` (lines 468–480): the last dotted component of
the foreign-key name must be among the allowed columns of the model's
Access Descriptor. -/
def is_access_foreign_key (permission : PermissionUser)
    (nameForeignKey model : String) : Bool :=
  let last := (pySplit nameForeignKey '.').getLastD ""
  last ∈ (permission.permission_for_get model).columns

/-- `_get_access_fields_in_schema` (lines 507–535).  Returns the computed
accessible field names together with the query-string state as rewritten
by `_update_qs_fields` (the original mutates `qs` in place).  The
source's `permission_for_get.columns is not None` guard is always taken
in the embedding, where `columns` is a plain list. -/
def get_access_fields_in_schema (env : Env) (permission : PermissionUser)
    (nameForeignKey clsSchema model : String) (qs : QSState) :
    Except PyErr (List String × QSState) := do
  let fieldForeignKey ← get_model_field env clsSchema nameForeignKey
  let mapper ← get_model env model fieldForeignKey
  let currentSchema ← get_schema env clsSchema nameForeignKey
  let permissionForGet := permission.permission_for_get mapper
  let nameColumns :=
    ((env.schema currentSchema).declaredFieldKeys.filter
      (· ∈ permissionForGet.columns)).dedup
  let qs' := update_qs_fields (env.schema currentSchema).typeName nameColumns
    qs nameForeignKey
  return (nameColumns, qs')

/-!
## SQLAlchemy query objects

Only the operations the plugin performs are modelled: `query.join`,
`query.filter`, `query.options` with either a `load_only(...)` option or
a (possibly `None`) `joinedload` chain.
-/

/-- One link of a `joinedload` chain: the relationship attribute it was
built from, the related model (`path[i].property.mapper.class_`) and the
columns set by `load_only` at that level. -/
structure JoinSeg where
  field : String
  target : String
  loadOnly : List String
  deriving Repr, DecidableEq, Inhabited

/-- A `joinedload(...)` option: the chain of segments (its `path`). -/
structure JoinLoad where
  segs : List JoinSeg
  deriving Repr, DecidableEq, Inhabited

/-- Modelled from the spec: `joinedload(getattr(model, field))` of
SQLAlchemy — valid only for a relationship attribute; a missing or
non-relationship attribute raises. -/
def joinedload_create (env : Env) (model field : String) :
    Except PyErr JoinLoad :=
  match (env.model model).relationships.lookup field with
  | some tgt => .ok ⟨[⟨field, tgt, []⟩]⟩
  | none => .error (.otherError ("joinedload on non-relationship " ++ field))

/-- Modelled from the spec: `joinload_object.joinedload(getattr(model,
field))` — extends the chain by one segment; the attribute is looked up
on the plugin's tracked `model` variable. -/
def joinedload_chain (env : Env) (jl : JoinLoad) (model field : String) :
    Except PyErr JoinLoad :=
  match (env.model model).relationships.lookup field with
  | some tgt => .ok ⟨jl.segs ++ [⟨field, tgt, []⟩]⟩
  | none => .error (.otherError ("joinedload on non-relationship " ++ field))

/-- `joinload_object.load_only(*cols)`: sets the column restriction at the
current end of the chain. -/
def JoinLoad.setLastLoadOnly (jl : JoinLoad) (cols : List String) : JoinLoad :=
  ⟨jl.segs.dropLast ++ (jl.segs.getLast?.map fun s => [{ s with loadOnly := cols }]).getD []⟩

/-- A query option: `load_only(...)` or a joined-load chain.  The chain is
an `Option` because `_eagerload_includes` can reach `query.options(
joinload_object)` with `joinload_object` still `None` (every dotted
segment dropped). -/
inductive QOpt where
  | loadOnly (cols : List String)
  | joined (jl : Option JoinLoad)
  deriving Repr, DecidableEq

/-- The relational query, recording exactly what the plugin adds to it. -/
structure SAQuery where
  joins : List (List String)
  filters : List String
  options : List QOpt
  deriving Repr, DecidableEq

/-!
## `_eagerload_includes` (permission_plugin.py lines 554–647)
-/

/-- The loop state of the dotted-include branch: `current_schema`,
`model`, `joinload_object` and the (mutated) query-string manager. -/
structure DotState where
  currentSchema : String
  model : String
  joinloadObject : Option JoinLoad
  qs : QSState
  deriving Repr, DecidableEq

/-- One iteration of `for i, obj in enumerate(include.split(SPLIT_REL))`
(lines 572–610).  An inaccessible foreign key makes the iteration
`continue` (state returned unchanged); note that only this one segment is
skipped and that `current_schema` / `model` stay stale for the next
segment, exactly as in the source. -/
def eagerload_dotted_step (env : Env) (permission : PermissionUser)
    (fuel : Nat) (st : DotState) (iobj : Nat × String) :
    Except PyErr DotState := do
  let (i, obj) := iobj
  let field ←
    match get_model_field env st.currentSchema obj with
    | .ok f => .ok f
    | .error e => .error (.invalidInclude e.str)
  if is_access_foreign_key permission obj st.model = false then
    return st
  else
    let jlo ←
      match st.joinloadObject with
      | none => joinedload_create env st.model field
      | some j => joinedload_chain env j st.model field
    let (nameColumns, qs') ← get_access_fields_in_schema env permission obj
      st.currentSchema st.model st.qs
    let currentSchema' ← get_schema env st.currentSchema obj
    let nameColumns :=
      match qs'.fieldsGet (env.schema currentSchema').typeName with
      | some l => if l ≠ [] then (nameColumns.filter (· ∈ l)).dedup else nameColumns
      | none => nameColumns
    let seg ←
      match jlo.segs.get? i with
      | some s => .ok s
      | none => .error .indexError
    let nameColumns :=
      (nameColumns.filter (· ∈ get_columns_for_query (env.model seg.target))).dedup
    let requiredColumnsNames :=
      nameColumns.flatMap (fun n => get_required_fields fuel n (env.model seg.target))
    let nameColumns := (nameColumns ++ requiredColumnsNames).dedup
    let jlo := jlo.setLastLoadOnly nameColumns
    let model' ←
      match get_model env st.model field with
      | .ok m => .ok m
      | .error (.valueError msg) => .error (.invalidInclude msg)
      | .error e => .error e
    return ⟨currentSchema', model', some jlo, qs'⟩

/-- The dotted-include branch (lines 569–610 plus the shared
`query.options(joinload_object)` at line 645, which is reached even when
every segment was dropped and `joinload_object` is still `None`). -/
def eagerload_dotted (env : Env) (permission : PermissionUser) (fuel : Nat)
    (selfSchema selfModel includePath : String) (query : SAQuery)
    (qs : QSState) : Except PyErr (SAQuery × QSState) := do
  let st ← ((pySplit includePath '.').enum).foldlM
    (eagerload_dotted_step env permission fuel)
    ⟨selfSchema, selfModel, none, qs⟩
  return ({ query with options := query.options ++ [QOpt.joined st.joinloadObject] },
    st.qs)

/-- The single-segment branch (lines 612–643 plus line 645).  An
inaccessible foreign key `continue`s the outer loop: no option is
appended. -/
def eagerload_single (env : Env) (permission : PermissionUser) (fuel : Nat)
    (selfSchema selfModel includePath : String) (query : SAQuery)
    (qs : QSState) : Except PyErr (SAQuery × QSState) := do
  let field ←
    match get_model_field env selfSchema includePath with
    | .ok f => .ok f
    | .error e => .error (.invalidInclude e.str)
  if is_access_foreign_key permission includePath selfModel = false then
    return (query, qs)
  else
    let jlo ← joinedload_create env selfModel field
    let (nameColumns, qs') ← get_access_fields_in_schema env permission
      includePath selfSchema selfModel qs
    let relatedSchema ← get_schema env selfSchema includePath
    let nameColumns :=
      match qs'.fieldsGet (env.schema relatedSchema).typeName with
      | some l => if l ≠ [] then (nameColumns.filter (· ∈ l)).dedup else nameColumns
      | none => nameColumns
    let seg ←
      match jlo.segs.get? 0 with
      | some s => .ok s
      | none => .error .indexError
    let nameColumns :=
      (nameColumns.filter (· ∈ get_columns_for_query (env.model seg.target))).dedup
    let requiredColumnsNames :=
      nameColumns.flatMap (fun n => get_required_fields fuel n (env.model seg.target))
    let nameColumns := (nameColumns ++ requiredColumnsNames).dedup
    let jlo := jlo.setLastLoadOnly nameColumns
    return ({ query with options := query.options ++ [QOpt.joined (some jlo)] },
      qs')

/-- `_eagerload_includes`: iterate over the snapshot of `qs.include`
(computed once, before any `_update_qs_fields` rewriting), threading the
query and the query-string state. -/
def eagerload_includes (env : Env) (permission : PermissionUser) (fuel : Nat)
    (selfSchema selfModel : String) (query : SAQuery) (qs : QSState) :
    Except PyErr (SAQuery × QSState) :=
  qs.includeList.foldlM
    (fun (acc : SAQuery × QSState) includePath =>
      if pyContains includePath '.' then
        eagerload_dotted env permission fuel selfSchema selfModel includePath
          acc.1 acc.2
      else
        eagerload_single env permission fuel selfSchema selfModel includePath
          acc.1 acc.2)
    (query, qs)

/-!
## The get / get_list data-layer hooks (lines 316–399)
-/

/-- Lines 383–392: the primary entity's column load set in
`data_layer_get_collection_update_query` — allowed columns, intersected
with the requested `fields[<type>]` when truthy, intersected with the
scalar columns (`get_columns_for_query`), unioned with the required-field
expansion of each member. -/
def collection_name_columns (env : Env) (permission : PermissionUser)
    (fuel : Nat) (resourceSchema model : String) (qs : QSState) :
    List String :=
  let nameColumns := (permission.permission_for_get model).columns
  let nameColumns :=
    match qs.fieldsGet (env.schema resourceSchema).typeName with
    | some l => if l ≠ [] then (nameColumns.filter (· ∈ l)).dedup else nameColumns
    | none => nameColumns
  let nameColumns :=
    (nameColumns.filter (· ∈ get_columns_for_query (env.model model))).dedup
  let requiredColumnsNames :=
    nameColumns.flatMap (fun n => get_required_fields fuel n (env.model model))
  (nameColumns ++ requiredColumnsNames).dedup

/-- Lines 341–351: the analogous load set in
`data_layer_get_object_update_query`.  Differences kept from the source:
`qs` may be absent, and the scalar filter uses
`model.__table__.columns.keys()` via a list comprehension (order kept, no
dedup). -/
def object_name_columns (env : Env) (permission : PermissionUser)
    (fuel : Nat) (resourceSchema model : String) (qs : Option QSState) :
    List String :=
  let nameColumns := (permission.permission_for_get model).columns
  let nameColumns :=
    match qs with
    | some q =>
      match q.fieldsGet (env.schema resourceSchema).typeName with
      | some l => if l ≠ [] then (nameColumns.filter (· ∈ l)).dedup else nameColumns
      | none => nameColumns
    | none => nameColumns
  let nameColumns := nameColumns.filter (· ∈ (env.model model).tableColumns)
  let requiredColumnsNames :=
    nameColumns.flatMap (fun n => get_required_fields fuel n (env.model model))
  (nameColumns ++ requiredColumnsNames).dedup

/-- `data_layer_get_collection_update_query` (lines 361–399): join and
filter from the Access Descriptor, restrict the loaded columns, then
rewrite the eager loads.  (The source also disables the data layer's
stock `eagerload_includes` helper by overwriting the attribute on
`self_json_api`; that external side effect carries no information for the
query itself and is not represented.) -/
def data_layer_get_collection_update_query (env : Env)
    (permission : PermissionUser) (fuel : Nat)
    (resourceSchema model : String) (query : SAQuery) (qs : QSState) :
    Except PyErr (SAQuery × QSState) :=
  let permissionForGet := permission.permission_for_get model
  let query := permissionForGet.joins.foldl
    (fun q j => { q with joins := q.joins ++ [j] }) query
  let query := { query with filters := query.filters ++ permissionForGet.filters }
  let nameColumns := collection_name_columns env permission fuel resourceSchema model qs
  let query := { query with options := query.options ++ [QOpt.loadOnly nameColumns] }
  eagerload_includes env permission fuel resourceSchema model query qs

/-- `data_layer_get_object_update_query` (lines 316–359): as above, but
`qs` may be `None`, in which case neither the requested-fields
intersection nor the eager-load rewriting happens. -/
def data_layer_get_object_update_query (env : Env)
    (permission : PermissionUser) (fuel : Nat)
    (resourceSchema model : String) (query : SAQuery) (qs : Option QSState) :
    Except PyErr (SAQuery × Option QSState) :=
  let permissionForGet := permission.permission_for_get model
  let query := permissionForGet.joins.foldl
    (fun q j => { q with joins := q.joins ++ [j] }) query
  let query := { query with filters := query.filters ++ permissionForGet.filters }
  let nameColumns := object_name_columns env permission fuel resourceSchema model qs
  let query := { query with options := query.options ++ [QOpt.loadOnly nameColumns] }
  match qs with
  | some q => do
    let (query', qs') ← eagerload_includes env permission fuel resourceSchema model query q
    return (query', some qs')
  | none => return (query, none)

/-!
## The schema pruner (`_permission_for_link_schema`, lines 165–265)

Marshmallow schema instances are mutable objects: each instance has its
own `fields` / `dump_fields` / `only` / `include_data`, while
`declared_fields` is class-level state, and the sub-schema cached inside a
`Relationship` field (`_Relationship__schema`) is reached through
`declared_fields` and therefore shared by every instance of the schema
class.  The embedding makes the object graph explicit: a heap of schema
objects addressed by index, with nested/relationship fields holding
references into the heap.
-/

/-- A field value of a schema object: a plain field, a `fields.Nested`
(non-`Relationship`) field carrying the reference to its current
`_schema` instance plus what is needed to re-instantiate it (its schema
class and its declared `only`), or a `Relationship` field carrying the
reference to its cached `_Relationship__schema` instance. -/
inductive FieldVal where
  | plain
  | nested (ref : Nat) (clsName : String) (fieldOnly : Option (List String))
  | rel (ref : Nat)
  deriving Repr, DecidableEq

/-- One marshmallow schema object.  `modelField` is the
`get_model_field` map of the schema's class (attribute name on the
model per schema field). -/
structure SchemaObj where
  declaredFields : List (String × FieldVal)
  fields : List (String × FieldVal)
  dumpFields : List (String × FieldVal)
  only : Option (List String)
  includeData : List String
  modelField : List (String × String)
  deriving Repr, DecidableEq

/-- The object heap; references are indices. -/
abbrev Heap := List SchemaObj

/-- A schema class, for re-instantiating nested sub-schemas. -/
structure SchemaClass where
  declaredFields : List (String × FieldVal)
  modelField : List (String × String)
  deriving Repr, DecidableEq

/-- Modelled from the spec: marshmallow schema instantiation
`cls_schema(only=..., ...)` — a fresh instance whose field dictionaries
are the class's declared fields restricted to `only` when given.  (The
source also forwards `many`, `exclude`, `context`, `load_only` and
`dump_only`; none of those affect which fields exist, so they are not
represented.) -/
def instantiateSchema (classes : List (String × SchemaClass))
    (clsName : String) (onlyArg : Option (List String)) : SchemaObj :=
  let cls := (classes.lookup clsName).getD ⟨[], []⟩
  let flds := match onlyArg with
    | some o => cls.declaredFields.filter (fun p => p.1 ∈ o)
    | none => cls.declaredFields
  { declaredFields := cls.declaredFields, fields := flds, dumpFields := flds,
    only := onlyArg, includeData := [], modelField := cls.modelField }

/-- `i_field._schema = i_schema` (line 245): point the named field of the
object at `ref` to the freshly built instance.  The same field object
lives in `fields` and `dump_fields`, so both are updated. -/
def updateFieldRef (heap : Heap) (ref : Nat) (name : String) (newRef : Nat)
    (clsName : String) (fOnly : Option (List String)) : Heap :=
  match heap.get? ref with
  | none => heap
  | some obj =>
    heap.set ref { obj with
      fields := obj.fields.map (fun p =>
        if p.1 = name then (p.1, FieldVal.nested newRef clsName fOnly) else p),
      dumpFields := obj.dumpFields.map (fun p =>
        if p.1 = name then (p.1, FieldVal.nested newRef clsName fOnly) else p) }

/-- Lines 189–198: the allowed names at this nesting level — for every
column that starts with the prefix (and is not the prefix itself), the
first path component after the prefix, deduplicated
(`list(set(...))`). -/
def permission_column_of (prefixName : String) (columns : List String) :
    List String :=
  let nestingSize : Nat :=
    if prefixName ≠ "" then (pySplit prefixName '.').length else 0
  let pre := if prefixName ≠ "" then prefixName ++ "." else ""
  ((columns.filter (fun c => pre.data.isPrefixOf c.data && c != prefixName)).map
    (fun c => ((pySplit c '.').drop nestingSize).headD "")).dedup

/-- Lines 205–221: the in-place restriction of one schema object —
`fields` and `dump_fields` are cut down to
`only ∩ (declared ∩ permission_column)`, `only` is overwritten with the
intersection, and `include_data` is filtered by the allowed names. -/
def pruneNodeFun (node : SchemaObj) (prefixName : String)
    (columns : List String) : SchemaObj :=
  let permissionColumn := permission_column_of prefixName columns
  let nameFields :=
    (node.declaredFields.map Prod.fst).filter (· ∈ permissionColumn)
  let only0 := match node.only with
    | some o => if o ≠ [] then o else nameFields
    | none => nameFields
  let only2 := (only0.filter (· ∈ nameFields)).dedup
  { node with
    fields := node.fields.filter (fun pr => pr.1 ∈ only2),
    dumpFields := node.fields.filter (fun pr => pr.1 ∈ only2),
    only := some only2,
    includeData := node.includeData.filter (· ∈ nameFields) }

/-- `_permission_for_link_schema` (lines 165–265), on the heap, with an
explicit recursion counter (the source recursion is bounded only by the
schema graph).  `model?` is `None` for the nested recursion (the source
forwards `**kwargs` without `model`), `isNested` defaults to `False` in
the source and is `true` only for the nested recursion.

The two early returns of lines 187–188 and 200–203 come first: an empty
`columns` or an empty computed allowed-name set leaves the heap — and so
the node — untouched.  Then the node is restricted in place
(`pruneNodeFun`), nested non-relationship fields are re-instantiated and
recursed into, and (only at non-nested levels) each remaining
`include_data` entry's shared `_Relationship__schema` object is recursed
into through `declared_fields` — without re-instantiation. -/
def permission_for_link_schema (classes : List (String × SchemaClass))
    (env : Env) :
    Nat → Heap → Nat → Option String → String → List String → Bool →
    Except PyErr Heap
  | 0, _, _, _, _, _, _ => .error (.otherError "recursion limit")
  | fuel + 1, heap, ref, model?, prefixName, columns, isNested =>
    if columns = [] then .ok heap
    else
      let permissionColumn := permission_column_of prefixName columns
      if permissionColumn = [] then .ok heap
      else
        match heap.get? ref with
        | none => .error (.otherError "dangling schema reference")
        | some schema =>
          let schema1 := pruneNodeFun schema prefixName columns
          let heap1 := heap.set ref schema1
          let nestedStep := fun (h : Heap) (p : String × FieldVal) =>
            match p with
            | (name, FieldVal.nested _oldRef clsName fOnly) =>
              if name ∈ permissionColumn then
                let newRef := h.length
                let newObj := instantiateSchema classes clsName fOnly
                let h1 := h ++ [newObj]
                let h2 := updateFieldRef h1 ref name newRef clsName fOnly
                permission_for_link_schema classes env fuel h2 newRef none
                  (if prefixName ≠ "" then prefixName ++ "." ++ name else name)
                  columns true
              else .ok h
            | _ => .ok h
          schema1.fields.foldlM nestedStep heap1 >>= fun heap2 =>
          if isNested then .ok heap2
          else
            let relStep := fun (h : Heap) (iInclude : String) =>
              match h.get? ref with
              | none => .error (.otherError "dangling schema reference")
              | some sobj =>
                if (sobj.fields.lookup iInclude).isSome then
                  match sobj.modelField.lookup iInclude with
                  | none => .error (.otherError ("no model field " ++ iInclude))
                  | some field =>
                    match model? with
                    | none => .error (.valueError "Not foreign ket on None")
                    | some m =>
                      match get_model env m field with
                      | .error e => .error e
                      | .ok iModel =>
                        match sobj.declaredFields.lookup iInclude with
                        | some (FieldVal.rel relRef) =>
                          permission_for_link_schema classes env fuel h relRef
                            (some iModel)
                            (if prefixName ≠ "" then
                              prefixName ++ "." ++ iInclude else iInclude)
                            columns false
                        | _ =>
                          .error (.otherError ("no cached schema " ++ iInclude))
                else .ok h
            schema1.includeData.foldlM relStep heap2

/-!
## The route interceptor (`after_route` / `_permission_method`,
lines 59–163)
-/

/-- Python `str.lower()` / `str.upper()` (kernel-reducible). -/
def pyLower (s : String) : String := ⟨s.data.map Char.toLower⟩

def pyUpper (s : String) : String := ⟨s.data.map Char.toUpper⟩

/-- A handler attribute of a resource class: the original bound method, a
`permission(...)`-wrapped method (lines 59–68: the wrapper builds a
`PermissionUser` per request and calls the original; the resource's
decorators are applied on top), or `_resource_method_bad_request`. -/
inductive Handler where
  | base (name : String)
  | wrapped (inner : Handler) (requestType : String) (many : Bool)
      (decorators : List String)
  | badRequest
  deriving Repr, DecidableEq

/-- Which resource base class the resource derives from. -/
inductive ResourceKind where
  | list
  | detail
  | other
  deriving Repr, DecidableEq

/-- A resource class, as `after_route` sees it: its base kind, its
`methods` attribute (when set), the `event` flag, the data layer's model
and `permission_<method>` lists, its handler attributes, the decorator
list `get_decorators_for_resource` returns for it, and the
`_permission_plugin_inited` marker. -/
structure Resource where
  kind : ResourceKind
  methodsAttr : Option (List String)
  event : Bool
  modelName : String
  dataLayerPerms : List (String × List String)
  handlers : List (String × Handler)
  decorators : List String
  inited : Bool
  deriving Repr, DecidableEq

/-- The mutable installation state: the resource class being wired plus
the process-wide `PermissionToMapper` registry. -/
structure InstallState where
  resource : Resource
  registry : List (String × String × List String)
  deriving Repr, DecidableEq

/-- The only exception `after_route` raises itself. -/
inductive InstallErr where
  | permissionException (msg : String)
  deriving Repr, DecidableEq

/-- Modelled from the spec: `PermissionToMapper.add_permission` appends a
registry entry `(operation kind, entity type) ↦ rule classes`. -/
def add_permission (registry : List (String × String × List String))
    (type_ model : String) (permissionClass : List String) :
    List (String × String × List String) :=
  registry ++ [(type_, model, permissionClass)]

/-- Python `setattr(resource, name, handler)`. -/
def setHandlerAttr (hs : List (String × Handler)) (k : String)
    (v : Handler) : List (String × Handler) :=
  if (hs.lookup k).isSome then
    hs.map (fun p => if p.1 = k then (k, v) else p)
  else hs ++ [(k, v)]

/-- `_permission_method` (lines 119–159): pick the method table and
operation kind from the base class, register the configured permission
classes, fail fast under strict mode when an enabled non-event operation
has none, and wrap (or disable) the handler. -/
def permission_method (strict : Bool) (st : InstallState)
    (typeMethod : String) : Except InstallErr InstallState :=
  let lType := pyLower typeMethod
  let uType := pyUpper typeMethod
  let resource := st.resource
  match resource.kind with
  | ResourceKind.other => .ok st
  | kind =>
    let methods :=
      match kind with
      | ResourceKind.list => resource.methodsAttr.getD ["GET", "POST"]
      | _ => resource.methodsAttr.getD ["GET", "PATCH", "DELETE"]
    let type_ :=
      match kind with
      | ResourceKind.list => if lType = "get" then "get_list" else lType
      | _ => lType
    let many :=
      match kind with
      | ResourceKind.list => true
      | _ => false
    if (resource.handlers.lookup lType).isNone then .ok st
    else
      let permissions :=
        (resource.dataLayerPerms.lookup ("permission_" ++ lType)).getD []
      let registry := add_permission st.registry type_ resource.modelName
        permissions
      if strict ∧ resource.event = false ∧ uType ∈ methods ∧
          permissions = [] then
        .error (.permissionException
          ("No permission case for " ++ resource.modelName ++ " " ++ type_))
      else
        let oldMethod := (resource.handlers.lookup lType).getD Handler.badRequest
        let newMethod := Handler.wrapped oldMethod lType many
          resource.decorators
        let handlers' :=
          if uType ∈ methods then setHandlerAttr resource.handlers lType newMethod
          else setHandlerAttr resource.handlers lType Handler.badRequest
        .ok { st with
          resource := { resource with handlers := handlers' },
          registry := registry }

/-- `after_route` (lines 80–117): once per resource class — if the
marker is set, return immediately; otherwise wire every method of the
base class's table and set the marker. -/
def after_route (strict : Bool) (st : InstallState) :
    Except InstallErr InstallState :=
  if st.resource.inited then .ok st
  else
    match st.resource.kind with
    | ResourceKind.list =>
      (["get", "post"].foldlM (permission_method strict) st).map
        (fun st' => { st' with
          resource := { st'.resource with inited := true } })
    | ResourceKind.detail =>
      (["get", "patch", "delete", "post"].foldlM (permission_method strict)
        st).map
        (fun st' => { st' with
          resource := { st'.resource with inited := true } })
    | ResourceKind.other => .ok st

/-- The conditions under which strict mode must refuse to install a
method: a list/detail resource, an operation whose handler exists, not an
event resource, the uppercased name enabled in the method table, and no
permission classes configured. -/
def StrictTrigger (st : InstallState) (m : String) : Prop :=
  (st.resource.kind = ResourceKind.list ∨
    st.resource.kind = ResourceKind.detail) ∧
  (st.resource.handlers.lookup (pyLower m)).isSome ∧
  st.resource.event = false ∧
  pyUpper m ∈ (match st.resource.kind with
    | ResourceKind.list => st.resource.methodsAttr.getD ["GET", "POST"]
    | _ => st.resource.methodsAttr.getD ["GET", "PATCH", "DELETE"]) ∧
  (st.resource.dataLayerPerms.lookup ("permission_" ++ pyLower m)).getD []
    = []

/-!
## Concrete scenarios used as witnesses and counterexamples
-/

/-- The spec's end-to-end scenario 3 model:
`required_fields = {"total": ["tax", "subtotal"]}`. -/
def modelScenario3 : ModelInfo :=
  { scalarColumns := ["total", "tax", "subtotal"],
    tableColumns := ["total", "tax", "subtotal"],
    relationships := [],
    requiredFields := [("total", ["tax", "subtotal"])] }

/-- A topological rank for `modelScenario3`'s dependency graph. -/
def rankScenario3 (a : String) : Nat := if a = "total" then 1 else 0

/-- The spec's testable-property scenario for the load set: allowed
columns `{a, b}`, requested fields `{b, c}`, with `b` implicitly
requiring `k`. -/
def envC2 : Env :=
  { models :=
      [("User", { scalarColumns := ["a", "b", "k"],
                  tableColumns := ["a", "b", "k"],
                  relationships := [],
                  requiredFields := [("b", ["k"])] })],
    schemas :=
      [("SUser", { typeName := "user",
                   declaredFieldKeys := ["a", "b", "c", "k"],
                   modelField := [("a", "a"), ("b", "b"), ("c", "c"), ("k", "k")],
                   relatedSchema := [] })] }

def permC2 : PermissionUser := ⟨[("User", ⟨["a", "b"], [], []⟩)]⟩

def qsC2 : QSState := ⟨[("fields[user]", "b,c")]⟩

/-- A topological rank for `envC2`'s dependency graph (`b` requires `k`). -/
def rankC2 (a : String) : Nat := if a = "b" then 1 else 0

/-- Witness environment for the join/filter claim: one model with one
join spec and one row filter in its Access Descriptor. -/
def envC6 : Env :=
  { models := [("M", { scalarColumns := ["c"], tableColumns := ["c"],
                       relationships := [], requiredFields := [] })],
    schemas := [("SM", { typeName := "m", declaredFieldKeys := ["c"],
                         modelField := [("c", "c")], relatedSchema := [] })] }

def permC6 : PermissionUser := ⟨[("M", ⟨["c"], [["jspec"]], ["flt"]⟩)]⟩

/-- The rewritten collection query on `envC6` with no includes. -/
def qC6res : SAQuery :=
  { joins := [["jspec"]], filters := ["flt"], options := [QOpt.loadOnly ["c"]] }

/-- Counterexample environment for the dotted-include drop: model `A`
has relationships `b` (inaccessible) and `c` (accessible). -/
def envC1 : Env :=
  { models :=
      [("A", { scalarColumns := ["id"], tableColumns := ["id"],
               relationships := [("b", "B"), ("c", "C")], requiredFields := [] }),
       ("B", { scalarColumns := ["x"], tableColumns := ["x"],
               relationships := [], requiredFields := [] }),
       ("C", { scalarColumns := ["x"], tableColumns := ["x"],
               relationships := [], requiredFields := [] })],
    schemas :=
      [("SA", { typeName := "a", declaredFieldKeys := ["id", "b", "c"],
                modelField := [("id", "id"), ("b", "b"), ("c", "c")],
                relatedSchema := [("b", "SB"), ("c", "SC")] }),
       ("SB", { typeName := "b", declaredFieldKeys := ["x"],
                modelField := [("x", "x")], relatedSchema := [] }),
       ("SC", { typeName := "c", declaredFieldKeys := ["x"],
                modelField := [("x", "x")], relatedSchema := [] })] }

/-- Principal for `envC1`: may see `c` and `id` on `A` (but not `b`),
and `x` on `C`. -/
def permC1 : PermissionUser :=
  ⟨[("A", ⟨["c", "id"], [], []⟩), ("C", ⟨["x"], [], []⟩)]⟩

/-- Counterexample environment for the error-taxonomy claim: model `P`
has relationships `d` (inaccessible) and `e` (accessible). -/
def envC8 : Env :=
  { models :=
      [("P", { scalarColumns := ["pid"], tableColumns := ["pid"],
               relationships := [("d", "D"), ("e", "E")], requiredFields := [] }),
       ("D", { scalarColumns := ["y"], tableColumns := ["y"],
               relationships := [], requiredFields := [] }),
       ("E", { scalarColumns := ["y"], tableColumns := ["y"],
               relationships := [], requiredFields := [] })],
    schemas :=
      [("SP", { typeName := "p", declaredFieldKeys := ["pid", "d", "e"],
                modelField := [("pid", "pid"), ("d", "d"), ("e", "e")],
                relatedSchema := [("d", "SD"), ("e", "SE")] }),
       ("SD", { typeName := "d", declaredFieldKeys := ["y"],
                modelField := [("y", "y")], relatedSchema := [] }),
       ("SE", { typeName := "e", declaredFieldKeys := ["y"],
                modelField := [("y", "y")], relatedSchema := [] })] }

/-- Principal for `envC8`: may see `e` and `pid` on `P` (but not `d`),
and `y` on `E`. -/
def permC8 : PermissionUser :=
  ⟨[("P", ⟨["e", "pid"], [], []⟩), ("E", ⟨["y"], [], []⟩)]⟩

/-- Pruner scenario: a per-request top-level schema instance with one
relationship field `r` whose cached sub-schema lives at heap index 2. -/
def topC5 : SchemaObj :=
  { declaredFields := [("r", FieldVal.rel 2)],
    fields := [("r", FieldVal.rel 2)],
    dumpFields := [("r", FieldVal.rel 2)],
    only := none, includeData := ["r"], modelField := [("r", "r")] }

/-- The shared cached `_Relationship__schema` instance (heap index 2)
with fields `x` and `y`. -/
def sharedC5 : SchemaObj :=
  { declaredFields := [("x", FieldVal.plain), ("y", FieldVal.plain)],
    fields := [("x", FieldVal.plain), ("y", FieldVal.plain)],
    dumpFields := [("x", FieldVal.plain), ("y", FieldVal.plain)],
    only := none, includeData := [], modelField := [("x", "x"), ("y", "y")] }

/-- Two per-request top instances (indices 0 and 1) sharing the cached
relationship sub-schema at index 2, exactly as two requests against the
same schema class do. -/
def heapC5 : Heap := [topC5, topC5, sharedC5]

def envC5 : Env :=
  { models :=
      [("M", { scalarColumns := [], tableColumns := [],
               relationships := [("r", "T")], requiredFields := [] }),
       ("T", { scalarColumns := ["x", "y"], tableColumns := ["x", "y"],
               relationships := [], requiredFields := [] })],
    schemas := [] }

/-- The field names the serializer would emit for the shared relationship
sub-schema (heap index 2) after a pruner run. -/
def sharedFieldNames (r : Except PyErr Heap) : Option (List String) :=
  match r with
  | .ok h => (h.get? 2).map (fun o => o.fields.map Prod.fst)
  | .error _ => none

/-- A `ResourceDetail` subclass with a `get` handler, no `methods`
attribute, not an event resource, and no permission classes configured
for any operation. -/
def resC7 : Resource :=
  { kind := ResourceKind.detail, methodsAttr := none, event := false,
    modelName := "M", dataLayerPerms := [],
    handlers := [("get", Handler.base "get")], decorators := [],
    inited := false }

def stC7 : InstallState := ⟨resC7, []⟩

/-- The idempotence scenario: same resource shape, separate state. -/
def stC9 : InstallState :=
  ⟨{ kind := ResourceKind.detail, methodsAttr := none, event := false,
     modelName := "M", dataLayerPerms := [],
     handlers := [("get", Handler.base "get")], decorators := [],
     inited := false }, []⟩

/-- The state after one non-strict installation on `stC9`: the `get`
handler wrapped once, the registry holding one entry, the marker set. -/
def stC9after : InstallState :=
  ⟨{ kind := ResourceKind.detail, methodsAttr := none, event := false,
     modelName := "M", dataLayerPerms := [],
     handlers := [("get", Handler.wrapped (Handler.base "get") "get" false [])],
     decorators := [], inited := true }, [("get", "M", [])]⟩

/-!
## Theorems
-/

theorem lookup_setKey_self (l : List (String × String)) (k v : String) :
    (setKey l k v).lookup k = some v := by
  induction l with
  | nil => simp [setKey]
  | cons p rest ih =>
    by_cases h : p.1 = k
    · simp [setKey, h]
    · have hb : (k == p.1) = false :=
        beq_eq_false_iff_ne.mpr (fun hh => h hh.symm)
      simp [setKey, h, List.lookup, hb, ih]

theorem lookup_setKey_ne (l : List (String × String)) (k v k' : String)
    (h : k' ≠ k) : (setKey l k v).lookup k' = l.lookup k' := by
  have hb : (k' == k) = false := beq_eq_false_iff_ne.mpr h
  induction l with
  | nil => simp [setKey, List.lookup, hb]
  | cons p rest ih =>
    by_cases hp : p.1 = k
    · subst hp
      simp [setKey, List.lookup, hb]
    · by_cases hp' : k' = p.1
      · have hb2 : (k' == p.1) = true := beq_iff_eq.mpr hp'
        simp [setKey, hp, List.lookup, hb2]
      · have hb2 : (k' == p.1) = false := beq_eq_false_iff_ne.mpr hp'
        simp [setKey, hp, List.lookup, hb2, ih]

/-- A `fields[...]` key is never the `include` key. -/
theorem fields_key_ne_include (t : String) :
    ("fields[" ++ t ++ "]") ≠ "include" := by
  intro h
  have hlen := congrArg String.length h
  rw [String.length_append, String.length_append] at hlen
  have h1 : "]".length = 1 := rfl
  have h2 : "include".length = 7 := rfl
  have h3 : "fields[".length = 7 := rfl
  omega

/-- Soundness: anything the recursion returns is transitively required.
No acyclicity is needed for this direction. -/
theorem getRequiredFieldsAux_sound (rf : List (String × List String)) :
    ∀ (fuel : Nat) (a x : String), x ∈ getRequiredFieldsAux rf fuel a →
      ReqReaches rf a x := by
  intro fuel
  induction fuel with
  | zero => intro a x hx; simp [getRequiredFieldsAux] at hx
  | succ n ih =>
    intro a x hx
    unfold getRequiredFieldsAux at hx
    cases hdeps : rf.lookup a with
    | none => rw [hdeps] at hx; simp at hx
    | some deps =>
      rw [hdeps] at hx
      simp only [List.mem_append, List.mem_flatMap] at hx
      rcases hx with hx | ⟨b, hb, hx⟩
      · exact ReqReaches.base ⟨deps, hdeps, hx⟩
      · exact ReqReaches.step ⟨deps, hdeps, hb⟩ (ih b x hx)

/-- Completeness: with a rank function witnessing acyclicity, fuel beyond
the rank of the start field suffices to enumerate every transitively
required field. -/
theorem getRequiredFieldsAux_complete (rf : List (String × List String))
    (rank : String → Nat)
    (hrank : ∀ a b, ReqEdge rf a b → rank b < rank a) :
    ∀ (a x : String), ReqReaches rf a x →
      ∀ fuel, rank a < fuel → x ∈ getRequiredFieldsAux rf fuel a := by
  intro a x hreach
  induction hreach with
  | base hedge =>
    intro fuel hfuel
    obtain ⟨deps, hdeps, hb⟩ := hedge
    cases fuel with
    | zero => omega
    | succ n => simp [getRequiredFieldsAux, hdeps, hb]
  | step hedge _ ih =>
    intro fuel hfuel
    obtain ⟨deps, hdeps, hb⟩ := hedge
    cases fuel with
    | zero => omega
    | succ n =>
      have hlt := hrank _ _ ⟨deps, hdeps, hb⟩
      have hx := ih n (by omega)
      simp only [getRequiredFieldsAux, hdeps, List.mem_append, List.mem_flatMap]
      exact Or.inr ⟨_, hb, hx⟩

/-- Stabilisation: past the rank bound the computed list is independent of
the fuel. -/
theorem getRequiredFieldsAux_stable (rf : List (String × List String))
    (rank : String → Nat)
    (hrank : ∀ a b, ReqEdge rf a b → rank b < rank a) :
    ∀ (a : String) (fuel fuel' : Nat), rank a < fuel → rank a < fuel' →
      getRequiredFieldsAux rf fuel a = getRequiredFieldsAux rf fuel' a := by
  intro a fuel
  induction fuel using Nat.strong_induction_on generalizing a with
  | _ fuel ih =>
    intro fuel' hf hf'
    cases fuel with
    | zero => omega
    | succ n =>
      cases fuel' with
      | zero => omega
      | succ n' =>
        unfold getRequiredFieldsAux
        cases hdeps : rf.lookup a with
        | none => rfl
        | some deps =>
          simp only []
          congr 1
          apply List.flatMap_congr
          intro b hb
          have hlt := hrank _ _ ⟨deps, hdeps, hb⟩
          exact ih n (by omega) b n' (by omega) (by omega)

/-- **C3**: `get_required_fields` returns exactly the columns transitively
reachable from the start field through `Meta.required_fields`, and the
recursion terminates whenever the dependency graph is acyclic (witnessed
by a rank function): past the rank bound the result no longer depends on
the fuel supplied to the embedding's recursion counter. -/
theorem claim_C3 (m : ModelInfo) (rank : String → Nat)
    (hrank : ∀ a b, ReqEdge m.requiredFields a b → rank b < rank a)
    (fieldName : String) (fuel fuel' : Nat)
    (hf : rank fieldName < fuel) (hf' : rank fieldName < fuel') :
    (∀ x, x ∈ get_required_fields fuel fieldName m ↔
      ReqReaches m.requiredFields fieldName x) ∧
    get_required_fields fuel fieldName m = get_required_fields fuel' fieldName m := by
  refine ⟨fun x => ⟨fun hx => getRequiredFieldsAux_sound _ _ _ _ hx,
    fun hr => getRequiredFieldsAux_complete _ rank hrank _ _ hr _ hf⟩, ?_⟩
  exact getRequiredFieldsAux_stable _ rank hrank _ _ _ hf hf'

/-- Witness for **C3** on the spec's scenario 3
(`required_fields = {"total": ["tax", "subtotal"]}`). -/
theorem claim_C3_witness :
    "tax" ∈ get_required_fields 2 "total" modelScenario3 ∧
    get_required_fields 2 "total" modelScenario3 =
      get_required_fields 5 "total" modelScenario3 := by
  have hrank : ∀ a b, ReqEdge modelScenario3.requiredFields a b →
      rankScenario3 b < rankScenario3 a := by
    intro a b hedge
    obtain ⟨deps, hdeps, hb⟩ := hedge
    by_cases ha : a = "total"
    · subst ha
      have hdeps' : deps = ["tax", "subtotal"] := by
        have := hdeps
        simp [modelScenario3, List.lookup] at this
        exact this.symm
      subst hdeps'
      have hb' : b = "tax" ∨ b = "subtotal" := by simpa using hb
      rcases hb' with hb' | hb' <;> subst hb' <;> simp [rankScenario3]
    · have hba : (a == "total") = false := beq_eq_false_iff_ne.mpr ha
      simp [modelScenario3, List.lookup, hba] at hdeps
  have h := claim_C3 modelScenario3 rankScenario3 hrank "total" 2 5
    (by decide) (by decide)
  refine ⟨(h.1 "tax").mpr ?_, h.2⟩
  exact ReqReaches.base ⟨["tax", "subtotal"], rfl, by simp⟩

theorem except_bind_ok {ε α β : Type} (a : α) (f : α → Except ε β) :
    (Except.ok a >>= f) = f a := rfl

theorem except_bind_error {ε α β : Type} (e : ε) (f : α → Except ε β) :
    ((Except.error e : Except ε α) >>= f) = Except.error e := rfl

theorem except_pure_def {ε α : Type} (a : α) :
    (pure a : Except ε α) = Except.ok a := rfl

/-- `eagerload_single` never touches the query's joins or filters: on
success the query is returned either unchanged or with options appended. -/
theorem eagerload_single_preserves (env : Env) (permission : PermissionUser)
    (fuel : Nat) (s m inc : String) (q : SAQuery) (qs : QSState)
    (q' : SAQuery) (qs' : QSState)
    (h : eagerload_single env permission fuel s m inc q qs = .ok (q', qs')) :
    q'.joins = q.joins ∧ q'.filters = q.filters := by
  unfold eagerload_single at h
  cases hf : get_model_field env s inc with
  | error e =>
    rw [hf] at h
    simp only [except_bind_error, except_bind_ok, except_pure_def] at h
    cases h
  | ok field =>
    rw [hf] at h
    simp only [except_bind_error, except_bind_ok, except_pure_def] at h
    by_cases hacc : is_access_foreign_key permission inc m = false
    · rw [if_pos hacc] at h
      injection h with h1
      injection h1 with h2 h3
      subst h2; exact ⟨rfl, rfl⟩
    · rw [if_neg hacc] at h
      cases hj : joinedload_create env m field with
      | error e => rw [hj] at h; simp only [except_bind_error] at h; cases h
      | ok jlo =>
        rw [hj] at h
        simp only [except_bind_ok] at h
        cases ha : get_access_fields_in_schema env permission inc s m qs with
        | error e => rw [ha] at h; simp only [except_bind_error] at h; cases h
        | ok pr =>
          obtain ⟨nc, qs2⟩ := pr
          rw [ha] at h
          simp only [except_bind_ok] at h
          cases hs : get_schema env s inc with
          | error e => rw [hs] at h; simp only [except_bind_error] at h; cases h
          | ok rel =>
            rw [hs] at h
            simp only [except_bind_ok] at h
            cases hseg : jlo.segs.get? 0 with
            | none =>
              rw [hseg] at h
              simp only [except_bind_error] at h
              cases h
            | some seg =>
              rw [hseg] at h
              simp only [except_bind_ok, except_pure_def] at h
              injection h with h1
              injection h1 with h2 h3
              subst h2; exact ⟨rfl, rfl⟩

/-- `eagerload_dotted` never touches the query's joins or filters. -/
theorem eagerload_dotted_preserves (env : Env) (permission : PermissionUser)
    (fuel : Nat) (s m inc : String) (q : SAQuery) (qs : QSState)
    (q' : SAQuery) (qs' : QSState)
    (h : eagerload_dotted env permission fuel s m inc q qs = .ok (q', qs')) :
    q'.joins = q.joins ∧ q'.filters = q.filters := by
  unfold eagerload_dotted at h
  cases hst : ((pySplit inc '.').enum).foldlM
      (eagerload_dotted_step env permission fuel) ⟨s, m, none, qs⟩ with
  | error e =>
    rw [hst] at h
    simp only [except_bind_error] at h
    cases h
  | ok st =>
    rw [hst] at h
    simp only [except_bind_ok, except_pure_def] at h
    injection h with h1
    injection h1 with h2 h3
    subst h2; exact ⟨rfl, rfl⟩

/-- The whole `_eagerload_includes` pass never touches joins or filters. -/
theorem eagerload_includes_preserves (env : Env) (permission : PermissionUser)
    (fuel : Nat) (s m : String) :
    ∀ (incs : List String) (q : SAQuery) (qs : QSState) (q' : SAQuery)
      (qs' : QSState),
      incs.foldlM
        (fun (acc : SAQuery × QSState) includePath =>
          if pyContains includePath '.' then
            eagerload_dotted env permission fuel s m includePath acc.1 acc.2
          else
            eagerload_single env permission fuel s m includePath acc.1 acc.2)
        (q, qs) = .ok (q', qs') →
      q'.joins = q.joins ∧ q'.filters = q.filters := by
  intro incs
  induction incs with
  | nil =>
    intro q qs q' qs' h
    rw [List.foldlM_nil, except_pure_def] at h
    injection h with h1
    injection h1 with h2 h3
    subst h2; exact ⟨rfl, rfl⟩
  | cons a as ih =>
    intro q qs q' qs' h
    rw [List.foldlM_cons] at h
    by_cases hdot : pyContains a '.'
    · rw [if_pos hdot] at h
      cases hstep : eagerload_dotted env permission fuel s m a q qs with
      | error e => rw [hstep] at h; simp only [except_bind_error] at h; cases h
      | ok acc1 =>
        rw [hstep] at h
        simp only [except_bind_ok] at h
        have h1 := eagerload_dotted_preserves env permission fuel s m a q qs
          acc1.1 acc1.2 (by rw [hstep])
        have h2 := ih acc1.1 acc1.2 q' qs' h
        exact ⟨h2.1.trans h1.1, h2.2.trans h1.2⟩
    · rw [if_neg hdot] at h
      cases hstep : eagerload_single env permission fuel s m a q qs with
      | error e => rw [hstep] at h; simp only [except_bind_error] at h; cases h
      | ok acc1 =>
        rw [hstep] at h
        simp only [except_bind_ok] at h
        have h1 := eagerload_single_preserves env permission fuel s m a q qs
          acc1.1 acc1.2 (by rw [hstep])
        have h2 := ih acc1.1 acc1.2 q' qs' h
        exact ⟨h2.1.trans h1.1, h2.2.trans h1.2⟩

/-- Folding the descriptor's joins onto the query appends them all. -/
theorem joins_foldl (js : List (List String)) :
    ∀ q : SAQuery,
      js.foldl (fun q j => { q with joins := q.joins ++ [j] }) q =
        { q with joins := q.joins ++ js } := by
  induction js with
  | nil => intro q; cases q; simp
  | cons a as ih =>
    intro q
    rw [List.foldl_cons, ih]
    simp

/-- Membership in the characteristic load-set shape
`base ∪ ⋃ (required-field closure of base)`. -/
theorem mem_load_set (rf : List (String × List String)) (rank : String → Nat)
    (hrank : ∀ a b, ReqEdge rf a b → rank b < rank a)
    (fuel : Nat) (hfuel : ∀ a, rank a < fuel) (base : List String) (x : String) :
    x ∈ (base ++ base.flatMap (fun n => getRequiredFieldsAux rf fuel n)).dedup ↔
      x ∈ base ∨ ∃ c, c ∈ base ∧ ReqReaches rf c x := by
  simp only [List.mem_dedup, List.mem_append, List.mem_flatMap]
  constructor
  · rintro (hx | ⟨c, hc, hx⟩)
    · exact Or.inl hx
    · exact Or.inr ⟨c, hc, getRequiredFieldsAux_sound _ _ _ _ hx⟩
  · rintro (hx | ⟨c, hc, hx⟩)
    · exact Or.inl hx
    · exact Or.inr ⟨c, hc,
        getRequiredFieldsAux_complete _ rank hrank _ _ hx _ (hfuel c)⟩

/-- **C2**: for the get/get_list query rewrites, the scalar load set of
the primary entity is exactly (Access Descriptor columns ∩ the requested
`fields[<type>]` when supplied ∩ the model's scalar columns) unioned with
the required-field closure of that intersection.  Stated for both the
requested and the unrequested case, and for both the collection hook
(scalar columns via `get_columns_for_query`) and the object hook (scalar
columns via `__table__.columns.keys()`). -/
theorem claim_C2 (env : Env) (permission : PermissionUser) (fuel : Nat)
    (resourceSchema model : String) (qs : QSState) (req : List String)
    (rank : String → Nat)
    (hrank : ∀ a b, ReqEdge (env.model model).requiredFields a b →
      rank b < rank a)
    (hfuel : ∀ a, rank a < fuel) (x : String) :
    (qs.fieldsGet (env.schema resourceSchema).typeName = some req → req ≠ [] →
      (x ∈ collection_name_columns env permission fuel resourceSchema model qs ↔
        (x ∈ (permission.permission_for_get model).columns ∧ x ∈ req ∧
          x ∈ get_columns_for_query (env.model model)) ∨
        ∃ c, (c ∈ (permission.permission_for_get model).columns ∧ c ∈ req ∧
            c ∈ get_columns_for_query (env.model model)) ∧
          ReqReaches (env.model model).requiredFields c x)) ∧
    (qs.fieldsGet (env.schema resourceSchema).typeName = none →
      (x ∈ collection_name_columns env permission fuel resourceSchema model qs ↔
        (x ∈ (permission.permission_for_get model).columns ∧
          x ∈ get_columns_for_query (env.model model)) ∨
        ∃ c, (c ∈ (permission.permission_for_get model).columns ∧
            c ∈ get_columns_for_query (env.model model)) ∧
          ReqReaches (env.model model).requiredFields c x)) ∧
    (qs.fieldsGet (env.schema resourceSchema).typeName = some req → req ≠ [] →
      (x ∈ object_name_columns env permission fuel resourceSchema model (some qs) ↔
        (x ∈ (permission.permission_for_get model).columns ∧ x ∈ req ∧
          x ∈ (env.model model).tableColumns) ∨
        ∃ c, (c ∈ (permission.permission_for_get model).columns ∧ c ∈ req ∧
            c ∈ (env.model model).tableColumns) ∧
          ReqReaches (env.model model).requiredFields c x)) := by
  refine ⟨?_, ?_, ?_⟩
  · intro hreq hne
    unfold collection_name_columns
    simp only [hreq, hne, if_true, ne_eq, not_false_iff, if_pos]
    simp only [get_required_fields]
    rw [mem_load_set _ rank hrank fuel hfuel]
    apply or_congr
    · simp [List.mem_filter, and_assoc]
    · apply exists_congr; intro c
      apply and_congr_left'
      simp [List.mem_filter, and_assoc]
  · intro hreq
    unfold collection_name_columns
    simp only [hreq]
    simp only [get_required_fields]
    rw [mem_load_set _ rank hrank fuel hfuel]
    apply or_congr
    · simp [List.mem_filter, and_assoc]
    · apply exists_congr; intro c
      apply and_congr_left'
      simp [List.mem_filter, and_assoc]
  · intro hreq hne
    unfold object_name_columns
    simp only [hreq, hne, if_true, ne_eq, not_false_iff, if_pos]
    simp only [get_required_fields]
    rw [mem_load_set _ rank hrank fuel hfuel]
    apply or_congr
    · simp [List.mem_filter, and_assoc]
    · apply exists_congr; intro c
      apply and_congr_left'
      simp [List.mem_filter, and_assoc]

/-- Witness for **C2** on the spec's scenario: allowed `{a, b}`,
requested `{b, c}`, `b` implicitly requiring `k`: the load set contains
`b` and its required field `k`. -/
theorem claim_C2_witness :
    "b" ∈ collection_name_columns envC2 permC2 2 "SUser" "User" qsC2 ∧
    "k" ∈ collection_name_columns envC2 permC2 2 "SUser" "User" qsC2 := by
  have hrank : ∀ a b, ReqEdge (envC2.model "User").requiredFields a b →
      rankC2 b < rankC2 a := by
    intro a b hedge
    obtain ⟨deps, hdeps, hb⟩ := hedge
    by_cases ha : a = "b"
    · subst ha
      have hdeps' : deps = ["k"] := by
        have hh := hdeps
        simp [envC2, Env.model, List.lookup] at hh
        exact hh.symm
      subst hdeps'
      have hb' : b = "k" := by simpa using hb
      subst hb'
      decide
    · have hba : (a == "b") = false := beq_eq_false_iff_ne.mpr ha
      simp [envC2, Env.model, List.lookup, hba] at hdeps
  have hfuel : ∀ a, rankC2 a < 2 := by
    intro a; unfold rankC2; split <;> omega
  have hb := ((claim_C2 envC2 permC2 2 "SUser" "User" qsC2 ["b", "c"] rankC2
    hrank hfuel "b").1 (by decide) (by decide)).mpr (Or.inl (by decide))
  have hk := ((claim_C2 envC2 permC2 2 "SUser" "User" qsC2 ["b", "c"] rankC2
    hrank hfuel "k").1 (by decide) (by decide)).mpr
    (Or.inr ⟨"b", by decide, ReqReaches.base ⟨["k"], by decide, by decide⟩⟩)
  exact ⟨hb, hk⟩

/-- The `some qs` tail of `data_layer_get_object_update_query` keeps the
joins and filters of the query it hands to `eagerload_includes`. -/
theorem eagerload_object_tail (env : Env) (permission : PermissionUser)
    (fuel : Nat) (rs m : String) (bigQ : SAQuery) (qq : QSState)
    (q2 : SAQuery) (oqs2 : Option QSState)
    (h : (do
        let (query', qs') ← eagerload_includes env permission fuel rs m bigQ qq
        return (query', some qs')) = Except.ok (q2, oqs2)) :
    q2.joins = bigQ.joins ∧ q2.filters = bigQ.filters := by
  cases he : eagerload_includes env permission fuel rs m bigQ qq with
  | error e => rw [he] at h; simp only [except_bind_error] at h; cases h
  | ok pr =>
    obtain ⟨qq2, qsr⟩ := pr
    rw [he] at h
    simp only [except_bind_ok, except_pure_def] at h
    injection h with h1
    injection h1 with h2 h3
    subst h2
    unfold eagerload_includes at he
    exact eagerload_includes_preserves env permission fuel rs m
      qq.includeList _ qq qq2 qsr he

/-- **C6**: every join spec and every row filter of the Access
Descriptor for the primary model is applied to the rewritten query
whenever a query is returned, for both the object and the collection
hook, whatever the field/include selections in the query string. -/
theorem claim_C6 (env : Env) (permission : PermissionUser) (fuel : Nat)
    (resourceSchema model : String) (q : SAQuery) (qs : QSState)
    (oqs : Option QSState) (q1 q2 : SAQuery) (qs1 : QSState)
    (oqs2 : Option QSState) :
    (data_layer_get_collection_update_query env permission fuel
        resourceSchema model q qs = .ok (q1, qs1) →
      (∀ j ∈ (permission.permission_for_get model).joins, j ∈ q1.joins) ∧
      (∀ p ∈ (permission.permission_for_get model).filters, p ∈ q1.filters)) ∧
    (data_layer_get_object_update_query env permission fuel
        resourceSchema model q oqs = .ok (q2, oqs2) →
      (∀ j ∈ (permission.permission_for_get model).joins, j ∈ q2.joins) ∧
      (∀ p ∈ (permission.permission_for_get model).filters, p ∈ q2.filters)) := by
  constructor
  · intro h
    unfold data_layer_get_collection_update_query eagerload_includes at h
    simp only [joins_foldl] at h
    have hpres := eagerload_includes_preserves env permission fuel
      resourceSchema model qs.includeList _ qs q1 qs1 h
    refine ⟨fun j hj => ?_, fun p hp => ?_⟩
    · rw [hpres.1]; simp [hj]
    · rw [hpres.2]; simp [hp]
  · intro h
    unfold data_layer_get_object_update_query at h
    simp only [joins_foldl] at h
    cases oqs with
    | none =>
      simp only [except_pure_def] at h
      injection h with h1
      injection h1 with h2 h3
      subst h2
      refine ⟨fun j hj => by simp [hj], fun p hp => by simp [hp]⟩
    | some qq =>
      have hpres := eagerload_object_tail env permission fuel resourceSchema
        model _ qq q2 oqs2 h
      refine ⟨fun j hj => ?_, fun p hp => ?_⟩
      · rw [hpres.1]; simp [hj]
      · rw [hpres.2]; simp [hp]

/-- Witness for **C6**: on a concrete environment the rewritten
collection query contains the descriptor's join spec and row filter. -/
theorem claim_C6_witness :
    (∀ j ∈ (permC6.permission_for_get "M").joins, j ∈ qC6res.joins) ∧
    (∀ p ∈ (permC6.permission_for_get "M").filters, p ∈ qC6res.filters) :=
  (claim_C6 envC6 permC6 1 "SM" "M" ⟨[], [], []⟩ ⟨[]⟩ none qC6res qC6res
    ⟨[]⟩ none).1 rfl

/-- Counterexample for **C1** as stated: for the include path `b.c`
where the principal lacks access to the intermediate relationship `b`
(but may see `c`), `_eagerload_includes` does *not* silently drop the
rest of the path — processing continues into the deeper segment against
the stale model, and `joinload_object.path[i]` is indexed out of range,
so the rewrite raises an error instead of returning a join-free query. -/
theorem claim_C1_counterexample :
    eagerload_includes envC1 permC1 10 "SA" "A" ⟨[], [], []⟩
      ⟨[("include", "b.c")]⟩ = .error .indexError := rfl

/-- **C1 (amended)**: the silent drop is per segment, not per path: a
dotted-path segment whose foreign key is inaccessible leaves the loop
state — schema, model, joined-load chain, and the query-string
parameters — completely unchanged and raises no error at that segment
(in particular no eager load and no field-selection rewrite happen for
the dropped relationship); deeper segments of the same path are still
processed, and an accessible deeper segment makes the rewrite fail
(see the counterexample). -/
theorem claim_C1 (env : Env) (permission : PermissionUser)
    (fuel : Nat) (st : DotState) (i : Nat) (obj field : String)
    (hfield : get_model_field env st.currentSchema obj = .ok field)
    (hacc : is_access_foreign_key permission obj st.model = false) :
    eagerload_dotted_step env permission fuel st (i, obj) = .ok st := by
  unfold eagerload_dotted_step
  dsimp only
  rw [hfield]
  simp only [except_bind_ok]
  rw [if_pos hacc]
  rfl

/-- Witness for **C1 (amended)** on `envC1`: the inaccessible first
segment `b` of `b.c` is skipped with the state untouched. -/
theorem claim_C1_witness :
    eagerload_dotted_step envC1 permC1 10
      ⟨"SA", "A", none, ⟨[("include", "b.c")]⟩⟩ (0, "b") =
      .ok ⟨"SA", "A", none, ⟨[("include", "b.c")]⟩⟩ :=
  claim_C1 envC1 permC1 10 _ 0 "b" "b" rfl rfl

/-- Counterexample for **C8** as stated: an exception that is not an
`InvalidInclude` escapes include resolution — with the include `d.e`,
the inaccessible segment `d` is skipped and the accessible deeper
segment `e` indexes `joinload_object.path[1]` on a one-element chain,
raising a bare `IndexError`. -/
theorem claim_C8_counterexample :
    eagerload_includes envC8 permC8 10 "SP" "P" ⟨[], [], []⟩
      ⟨[("include", "d.e")]⟩ = .error .indexError := rfl

/-- **C8 (amended)**: the schema-field lookup failures the source wraps
do surface as `InvalidInclude` carrying the underlying message — both
for a single-segment include and for the first segment of a dotted
include — but not every failure is so wrapped: an inaccessible segment
followed by an accessible one escapes as an index error (see the
counterexample). -/
theorem claim_C8 (env : Env) (permission : PermissionUser)
    (fuel : Nat) (selfSchema selfModel inc : String) (q : SAQuery)
    (qs : QSState) (hinc : qs.includeList = [inc]) :
    ((env.schema selfSchema).modelField.lookup inc = none →
      pyContains inc '.' = false →
      eagerload_includes env permission fuel selfSchema selfModel q qs =
        .error (.invalidInclude (selfSchema ++ " has no attribute " ++ inc))) ∧
    (∀ s0 rest, pySplit inc '.' = s0 :: rest →
      pyContains inc '.' = true →
      (env.schema selfSchema).modelField.lookup s0 = none →
      eagerload_includes env permission fuel selfSchema selfModel q qs =
        .error (.invalidInclude (selfSchema ++ " has no attribute " ++ s0))) := by
  constructor
  · intro hmiss hdot
    unfold eagerload_includes
    rw [hinc, List.foldlM_cons]
    rw [if_neg (by simp [hdot])]
    unfold eagerload_single get_model_field
    rw [hmiss]
    rfl
  · intro s0 rest hsplit hdot hmiss
    unfold eagerload_includes
    rw [hinc, List.foldlM_cons]
    rw [if_pos (by simp [hdot])]
    unfold eagerload_dotted
    rw [hsplit, List.enum_cons, List.foldlM_cons]
    unfold eagerload_dotted_step get_model_field
    dsimp only
    rw [hmiss]
    rfl

/-- Witness for **C8 (amended)**: a single-segment include naming a
field absent from the schema yields `InvalidInclude` with the lookup
failure's message. -/
theorem claim_C8_witness :
    eagerload_includes envC8 permC8 10 "SP" "P" ⟨[], [], []⟩
      ⟨[("include", "zz")]⟩ =
      .error (.invalidInclude ("SP" ++ " has no attribute " ++ "zz")) :=
  (claim_C8 envC8 permC8 10 "SP" "P" "zz" ⟨[], [], []⟩
    ⟨[("include", "zz")]⟩ rfl).1 rfl rfl

/-- Counterexample for **C10** as stated: with accessible fields `["a"]`
(non-empty!), previously requested fields `fields[t]=b` and the
relationship `r` in the include list, the computed intersection is
empty, so the code removes the include entry and leaves the stale
`fields[t]=b` in place — whereas the claim, whose removal branch
triggers only on an *empty accessible list*, prescribes setting
`fields[t]` to the (empty) intersection. -/
theorem claim_C10_counterexample :
    (update_qs_fields "t" ["a"] ⟨[("fields[t]", "b"), ("include", "r")]⟩
      "r").qs = [("fields[t]", "b"), ("include", "")] ∧
    (update_qs_fields "t" ["a"] ⟨[("fields[t]", "b"), ("include", "r")]⟩
      "r").qs.lookup "fields[t]" ≠
        some (String.intercalate "," (["b"].filter (· ∈ ["a"]))) :=
  ⟨rfl, by decide⟩

/-- **C10 (amended)**: `_update_qs_fields` branches on the *computed*
new-field list (requested ∩ accessible when the type was requested, else
the accessible list): when that list is empty and the relationship name
is an include entry, the include entry is removed and every
`fields[...]` parameter is left as it was (after dropping empty-valued
parameters); in every other case `fields[<type>]` is set to exactly the
computed list and the include parameter is untouched. -/
theorem claim_C10 (typeSchema : String) (flds : List String)
    (qs : QSState) (nfk : String) (newFields : List String)
    (cleaned : List (String × String)) (includeL : List String)
    (hnew : (match qs.fieldsGet typeSchema with
      | some old => (old.filter (· ∈ flds)).dedup
      | none => flds) = newFields)
    (hclean : qs.qs.filter (fun p => p.2 ≠ "") = cleaned)
    (hincl : pySplit ((cleaned.lookup "include").getD "") ',' = includeL) :
    (newFields = [] → nfk ∈ includeL →
      (update_qs_fields typeSchema flds qs nfk).qs.lookup "include" =
          some (String.intercalate "," (includeL.filter (· ≠ nfk))) ∧
      (∀ t, (update_qs_fields typeSchema flds qs nfk).qs.lookup
          ("fields[" ++ t ++ "]") = cleaned.lookup ("fields[" ++ t ++ "]"))) ∧
    (¬ (newFields = [] ∧ nfk ∈ includeL) →
      (update_qs_fields typeSchema flds qs nfk).qs.lookup
          ("fields[" ++ typeSchema ++ "]") =
        some (String.intercalate "," newFields) ∧
      (update_qs_fields typeSchema flds qs nfk).qs.lookup "include" =
        cleaned.lookup "include") := by
  constructor
  · intro hempty hmem
    unfold update_qs_fields
    rw [hnew, hclean]
    dsimp only
    rw [hincl]
    rw [if_pos ⟨hempty, hmem⟩]
    exact ⟨lookup_setKey_self _ _ _,
      fun t => lookup_setKey_ne _ _ _ _ (fields_key_ne_include t)⟩
  · intro hcond
    unfold update_qs_fields
    rw [hnew, hclean]
    dsimp only
    rw [hincl]
    rw [if_neg hcond]
    exact ⟨lookup_setKey_self _ _ _,
      lookup_setKey_ne _ _ _ _ (Ne.symm (fields_key_ne_include typeSchema))⟩

/-- Witness for **C10 (amended)**: requested `fields[u]=a,b`, accessible
`["a"]`, name `r` not an include entry — the fields parameter is set to
the intersection `a` and `include` stays absent. -/
theorem claim_C10_witness :
    (update_qs_fields "u" ["a"] ⟨[("fields[u]", "a,b")]⟩ "r").qs.lookup
        ("fields[" ++ "u" ++ "]") = some (String.intercalate "," ["a"]) ∧
    (update_qs_fields "u" ["a"] ⟨[("fields[u]", "a,b")]⟩ "r").qs.lookup
        "include" = ([("fields[u]", "a,b")] : List (String × String)).lookup
        "include" :=
  (claim_C10 "u" ["a"] ⟨[("fields[u]", "a,b")]⟩ "r" ["a"]
    [("fields[u]", "a,b")] [""] rfl rfl rfl).2 (by decide)

/-- **C4**: the pruner's early returns — an empty `columns` set, or an
empty computed allowed-name set for the node's dotted-path prefix, make
`_permission_for_link_schema` return with the heap (hence the node's
`fields`, `dump_fields`, `only` and `include_data`) completely
untouched: an empty allowlist means unrestricted, not nothing
allowed. -/
theorem claim_C4 (classes : List (String × SchemaClass)) (env : Env)
    (fuel : Nat) (heap : Heap) (ref : Nat) (model? : Option String)
    (prefixName : String) (columns : List String) (isNested : Bool)
    (hfuel : 0 < fuel)
    (h : columns = [] ∨ permission_column_of prefixName columns = []) :
    permission_for_link_schema classes env fuel heap ref model? prefixName
      columns isNested = .ok heap := by
  cases fuel with
  | zero => omega
  | succ n =>
    rcases h with h | h
    · subst h
      unfold permission_for_link_schema
      rw [if_pos rfl]
    · unfold permission_for_link_schema
      by_cases hc : columns = []
      · rw [if_pos hc]
      · rw [if_neg hc]
        dsimp only
        rw [if_pos h]

/-- Witness for **C4**: columns `["q.z"]` with prefix `"w"` produce an
empty allowed-name set, and the heap of the two-schema scenario is
returned unchanged. -/
theorem claim_C4_witness :
    permission_for_link_schema [] envC5 1 heapC5 0 (some "M") "w"
      ["q.z"] false = .ok heapC5 :=
  claim_C4 [] envC5 1 heapC5 0 (some "M") "w" ["q.z"] false
    (by decide) (Or.inr (by decide))

/-- Counterexample for **C5** as stated: the relationship sub-schema the
pruner restricts is the *shared cached* instance, not a reconstruction —
pruning the tree for principal A (allowed `r.x`) and then for principal B
(allowed `r.x` and `r.y`) leaves B observing only `x` on the shared
related schema, whereas pruning for B alone leaves `x` and `y`: the
pruned field sets are not independent. -/
theorem claim_C5_counterexample :
    sharedFieldNames
      (permission_for_link_schema [] envC5 3 heapC5 0 (some "M") ""
        ["r.x"] false >>= fun h1 =>
       permission_for_link_schema [] envC5 3 h1 1 (some "M") ""
        ["r.x", "r.y"] false) = some ["x"] ∧
    sharedFieldNames
      (permission_for_link_schema [] envC5 3 heapC5 1 (some "M") ""
        ["r.x", "r.y"] false) = some ["x", "y"] ∧
    (["x"] : List String) ≠ ["x", "y"] :=
  ⟨rfl, rfl, by decide⟩

theorem get?_set_self {α : Type} (l : List α) (i : Nat) (a : α)
    (h : i < l.length) : (l.set i a).get? i = some a := by
  induction l generalizing i with
  | nil => simp at h
  | cons b rest ih =>
    cases i with
    | zero => rfl
    | succ n =>
      simp only [List.set_cons_succ, List.get?_cons_succ]
      exact ih n (by simpa using h)

/-- A pruner step on a node with only plain fields and no includes is
exactly the in-place node restriction `pruneNodeFun`. -/
theorem prune_plain_step (classes : List (String × SchemaClass)) (env : Env)
    (fuel : Nat) (heap : Heap) (ref : Nat) (model? : Option String)
    (p : String) (cols : List String) (node : SchemaObj)
    (href : heap.get? ref = some node)
    (hplain : ∀ pr ∈ node.fields, pr.2 = FieldVal.plain)
    (hinc : node.includeData = [])
    (hcols : cols ≠ []) (hN : permission_column_of p cols ≠ []) :
    permission_for_link_schema classes env (fuel + 1) heap ref model? p cols
      false = .ok (heap.set ref (pruneNodeFun node p cols)) := by
  unfold permission_for_link_schema
  rw [if_neg hcols]
  dsimp only
  rw [if_neg hN, href]
  dsimp only
  have hplain' : ∀ pr ∈ (pruneNodeFun node p cols).fields,
      pr.2 = FieldVal.plain := by
    intro pr hpr
    apply hplain
    have := List.mem_filter.mp hpr
    exact this.1
  have hfold : ∀ (items : List (String × FieldVal)) (h : Heap),
      (∀ pr ∈ items, pr.2 = FieldVal.plain) →
      items.foldlM (fun (h : Heap) (pr : String × FieldVal) =>
        match pr with
        | (name, FieldVal.nested _oldRef clsName fOnly) =>
          if name ∈ permission_column_of p cols then
            permission_for_link_schema classes env fuel
              (updateFieldRef (h ++ [instantiateSchema classes clsName fOnly])
                ref name h.length clsName fOnly)
              h.length none
              (if p ≠ "" then p ++ "." ++ name else name) cols true
          else .ok h
        | _ => .ok h) h = .ok h := by
    intro items
    induction items with
    | nil => intro h _; rfl
    | cons a rest ih =>
      intro h hall
      obtain ⟨name, fv⟩ := a
      have ha := hall _ (List.mem_cons_self _ _)
      simp only at ha
      subst ha
      rw [List.foldlM_cons]
      exact ih h (fun pr hpr => hall pr (List.mem_cons_of_mem _ hpr))
  rw [hfold _ _ hplain']
  simp only [except_bind_ok]
  have hinc' : (pruneNodeFun node p cols).includeData = [] := by
    simp [pruneNodeFun, hinc]
  rw [hinc']
  rfl

/-- `only` after restricting a node that already carries a non-empty
`only`: the old `only` intersected with the allowed declared names. -/
theorem pruneNodeFun_only_some (node : SchemaObj) (p : String)
    (cols : List String) (o : List String) (ho : node.only = some o)
    (hne : o ≠ []) :
    (pruneNodeFun node p cols).only =
      some ((o.filter (· ∈ (node.declaredFields.map Prod.fst).filter
        (· ∈ permission_column_of p cols))).dedup) := by
  simp only [pruneNodeFun, ho]
  rw [if_pos hne]

/-- `only` after restricting an unrestricted node: the allowed declared
names, deduplicated. -/
theorem pruneNodeFun_only_none (node : SchemaObj) (p : String)
    (cols : List String) (ho : node.only = none) :
    (pruneNodeFun node p cols).only =
      some (((node.declaredFields.map Prod.fst).filter
        (· ∈ permission_column_of p cols)).dedup) := by
  simp only [pruneNodeFun, ho]
  rw [List.filter_eq_self.mpr (fun a ha => by simpa using ha)]

/-- **C5 (amended)**: nested (non-relationship) sub-schemas are freshly
re-instantiated, but the relationship sub-schema the pruner recurses
into is the shared cached instance, and restricting it is cumulative:
pruning the same schema object for principal A and then for principal B
leaves B's observable allowed-name set equal to
declared ∩ A's names ∩ B's names, whereas pruning for B alone leaves
declared ∩ B's names — so two principals' pruned field sets are
independent only when A's pruning does not restrict B's fields. -/
theorem claim_C5 (classes : List (String × SchemaClass)) (env : Env)
    (f1 f2 : Nat) (heap : Heap) (ref : Nat) (model1 model2 : Option String)
    (p : String) (colsA colsB : List String) (node : SchemaObj)
    (href : heap.get? ref = some node)
    (hplain : ∀ pr ∈ node.fields, pr.2 = FieldVal.plain)
    (hinc : node.includeData = [])
    (honly : node.only = none)
    (hcolsA : colsA ≠ []) (hNA : permission_column_of p colsA ≠ [])
    (hcolsB : colsB ≠ []) (hNB : permission_column_of p colsB ≠ [])
    (hAB : (node.declaredFields.map Prod.fst).filter
      (· ∈ permission_column_of p colsA) ≠ []) :
    (permission_for_link_schema classes env (f1 + 1) heap ref model1 p colsA
        false >>= fun h =>
      permission_for_link_schema classes env (f2 + 1) h ref model2 p colsB
        false) =
      .ok (heap.set ref (pruneNodeFun (pruneNodeFun node p colsA) p colsB)) ∧
    permission_for_link_schema classes env (f2 + 1) heap ref model2 p colsB
      false = .ok (heap.set ref (pruneNodeFun node p colsB)) ∧
    (∀ x, x ∈ ((pruneNodeFun (pruneNodeFun node p colsA) p colsB).only.getD [])
      ↔ (x ∈ node.declaredFields.map Prod.fst ∧
          x ∈ permission_column_of p colsA ∧
          x ∈ permission_column_of p colsB)) ∧
    (∀ x, x ∈ ((pruneNodeFun node p colsB).only.getD []) ↔
      (x ∈ node.declaredFields.map Prod.fst ∧
        x ∈ permission_column_of p colsB)) := by
  have hlen : ref < heap.length := (List.get?_eq_some.mp href).1
  have hA := prune_plain_step classes env f1 heap ref model1 p colsA node
    href hplain hinc hcolsA hNA
  have hrefA : (heap.set ref (pruneNodeFun node p colsA)).get? ref =
      some (pruneNodeFun node p colsA) := get?_set_self _ _ _ hlen
  have hplainA : ∀ pr ∈ (pruneNodeFun node p colsA).fields,
      pr.2 = FieldVal.plain := by
    intro pr hpr
    exact hplain pr (List.mem_filter.mp hpr).1
  have hincA : (pruneNodeFun node p colsA).includeData = [] := by
    simp [pruneNodeFun, hinc]
  have hB := prune_plain_step classes env f2
    (heap.set ref (pruneNodeFun node p colsA)) ref model2 p colsB
    (pruneNodeFun node p colsA) hrefA hplainA hincA hcolsB hNB
  -- `only` after the first prune: declared ∩ A's names, deduplicated
  have honlyA : (pruneNodeFun node p colsA).only =
      some (((node.declaredFields.map Prod.fst).filter
        (· ∈ permission_column_of p colsA)).dedup) :=
    pruneNodeFun_only_none node p colsA honly
  have hne : (((node.declaredFields.map Prod.fst).filter
      (· ∈ permission_column_of p colsA)).dedup) ≠ [] := by
    intro hnil
    exact hAB ((List.dedup_eq_nil _).mp hnil)
  have honlyAB := pruneNodeFun_only_some (pruneNodeFun node p colsA) p colsB
    _ honlyA hne
  refine ⟨?_, ?_, ?_, ?_⟩
  · rw [hA]
    simp only [except_bind_ok]
    rw [hB, List.set_set]
  · exact prune_plain_step classes env f2 heap ref model2 p colsB node
      href hplain hinc hcolsB hNB
  · intro x
    rw [honlyAB]
    simp only [Option.getD_some]
    simp only [List.mem_dedup, List.mem_filter, decide_eq_true_eq]
    constructor
    · rintro ⟨⟨hx1, hx2⟩, hx3, hx4⟩
      exact ⟨hx1, hx2, hx4⟩
    · rintro ⟨hx1, hx2, hx3⟩
      exact ⟨⟨hx1, hx2⟩, hx1, hx3⟩
  · intro x
    rw [pruneNodeFun_only_none node p colsB honly]
    simp only [Option.getD_some]
    simp only [List.mem_dedup, List.mem_filter, decide_eq_true_eq]

/-- Witness for **C5 (amended)** on the shared sub-schema of `heapC5`:
pruning for A (`x`) then B (`x`, `y`) leaves exactly `x` visible, while
pruning for B alone leaves `x` and `y`. -/
theorem claim_C5_witness :
    ("x" ∈ ((pruneNodeFun (pruneNodeFun sharedC5 "r" ["r.x"]) "r"
        ["r.x", "r.y"]).only.getD []) ∧
     "y" ∉ ((pruneNodeFun (pruneNodeFun sharedC5 "r" ["r.x"]) "r"
        ["r.x", "r.y"]).only.getD [])) ∧
    ("y" ∈ ((pruneNodeFun sharedC5 "r" ["r.x", "r.y"]).only.getD [])) := by
  have h := claim_C5 [] envC5 2 2 [sharedC5] 0 none none "r"
    ["r.x"] ["r.x", "r.y"] sharedC5 rfl (by decide) rfl rfl
    (by decide) (by decide) (by decide) (by decide) (by decide)
  refine ⟨⟨(h.2.2.1 "x").mpr (by decide), fun hy => ?_⟩,
    (h.2.2.2 "y").mpr (by decide)⟩
  have := (h.2.2.1 "y").mp hy
  have hfalse : ("y" : String) ∈ permission_column_of "r" ["r.x"] := this.2.1
  revert hfalse
  decide

theorem lookup_mapUpdate_isSome (k : String) (v : Handler) :
    ∀ (hs : List (String × Handler)) (k0 : String),
    (hs.lookup k0).isSome →
    ((hs.map (fun p => if p.1 = k then (k, v) else p)).lookup k0).isSome := by
  intro hs
  induction hs with
  | nil => intro k0 h; simp at h
  | cons p rest ih =>
    intro k0 h
    rw [List.map_cons]
    by_cases hk0 : k0 = p.1
    · by_cases hp : p.1 = k
      · rw [if_pos hp]
        have hb : (k0 == k) = true := beq_iff_eq.mpr (hk0.trans hp)
        simp [List.lookup, hb]
      · rw [if_neg hp]
        have hb : (k0 == p.1) = true := beq_iff_eq.mpr hk0
        simp [List.lookup, hb]
    · have hb' : (k0 == p.1) = false := beq_eq_false_iff_ne.mpr hk0
      have hrest : (rest.lookup k0).isSome := by
        simpa [List.lookup, hb'] using h
      by_cases hp : p.1 = k
      · rw [if_pos hp]
        by_cases hkk : k0 = k
        · have hb : (k0 == k) = true := beq_iff_eq.mpr hkk
          simp [List.lookup, hb]
        · have hb : (k0 == k) = false := beq_eq_false_iff_ne.mpr hkk
          simp only [List.lookup, hb]
          exact ih k0 hrest
      · rw [if_neg hp]
        simp only [List.lookup, hb']
        exact ih k0 hrest

theorem lookup_append_left_isSome :
    ∀ (hs tail : List (String × Handler)) (k0 : String),
    (hs.lookup k0).isSome → ((hs ++ tail).lookup k0).isSome := by
  intro hs
  induction hs with
  | nil => intro tail k0 h; simp at h
  | cons p rest ih =>
    intro tail k0 h
    rw [List.cons_append]
    by_cases hk0 : k0 = p.1
    · have hb : (k0 == p.1) = true := beq_iff_eq.mpr hk0
      simp [List.lookup, hb]
    · have hb : (k0 == p.1) = false := beq_eq_false_iff_ne.mpr hk0
      simp only [List.lookup, hb]
      apply ih
      simpa [List.lookup, hb] using h

theorem lookup_setHandlerAttr_isSome (hs : List (String × Handler))
    (k : String) (v : Handler) (k0 : String)
    (h : (hs.lookup k0).isSome) :
    ((setHandlerAttr hs k v).lookup k0).isSome := by
  unfold setHandlerAttr
  by_cases hk : (hs.lookup k).isSome
  · rw [if_pos hk]
    exact lookup_mapUpdate_isSome k v hs k0 h
  · rw [if_neg hk]
    exact lookup_append_left_isSome hs _ k0 h

/-- With strict mode off, `_permission_method` never raises. -/
theorem permission_method_false_ok (st : InstallState) (m : String) :
    ∃ st', permission_method false st m = .ok st' := by
  unfold permission_method
  dsimp only
  cases hk : st.resource.kind with
  | other => exact ⟨st, rfl⟩
  | list =>
    dsimp only
    by_cases hh : (st.resource.handlers.lookup (pyLower m)).isNone
    · rw [if_pos hh]; exact ⟨st, rfl⟩
    · rw [if_neg hh]
      rw [if_neg (by simp)]
      exact ⟨_, rfl⟩
  | detail =>
    dsimp only
    by_cases hh : (st.resource.handlers.lookup (pyLower m)).isNone
    · rw [if_pos hh]; exact ⟨st, rfl⟩
    · rw [if_neg hh]
      rw [if_neg (by simp)]
      exact ⟨_, rfl⟩

/-- Wiring one method changes only the handler table and the registry. -/
theorem permission_method_preserves (strict : Bool) (st st' : InstallState)
    (m m0 : String) (h : permission_method strict st m = .ok st') :
    st'.resource.kind = st.resource.kind ∧
    st'.resource.methodsAttr = st.resource.methodsAttr ∧
    st'.resource.event = st.resource.event ∧
    st'.resource.dataLayerPerms = st.resource.dataLayerPerms ∧
    st'.resource.inited = st.resource.inited ∧
    ((st.resource.handlers.lookup m0).isSome →
      (st'.resource.handlers.lookup m0).isSome) := by
  unfold permission_method at h
  dsimp only at h
  cases hk : st.resource.kind with
  | other =>
    rw [hk] at h
    dsimp only at h
    injection h with h1
    subst h1
    exact ⟨hk, rfl, rfl, rfl, rfl, fun hh => hh⟩
  | list =>
    rw [hk] at h
    dsimp only at h
    by_cases hh : (st.resource.handlers.lookup (pyLower m)).isNone
    · rw [if_pos hh] at h
      injection h with h1
      subst h1
      exact ⟨hk, rfl, rfl, rfl, rfl, fun hh => hh⟩
    · rw [if_neg hh] at h
      by_cases hc : (strict = true) ∧ st.resource.event = false ∧
          pyUpper m ∈ st.resource.methodsAttr.getD ["GET", "POST"] ∧
          (st.resource.dataLayerPerms.lookup
            ("permission_" ++ pyLower m)).getD [] = []
      · rw [if_pos hc] at h; cases h
      · rw [if_neg hc] at h
        injection h with h1
        subst h1
        refine ⟨rfl, rfl, rfl, rfl, rfl, fun hs => ?_⟩
        by_cases hu : pyUpper m ∈ st.resource.methodsAttr.getD ["GET", "POST"]
        · simp only [if_pos hu]
          exact lookup_setHandlerAttr_isSome _ _ _ _ hs
        · simp only [if_neg hu]
          exact lookup_setHandlerAttr_isSome _ _ _ _ hs
  | detail =>
    rw [hk] at h
    dsimp only at h
    by_cases hh : (st.resource.handlers.lookup (pyLower m)).isNone
    · rw [if_pos hh] at h
      injection h with h1
      subst h1
      exact ⟨hk, rfl, rfl, rfl, rfl, fun hh => hh⟩
    · rw [if_neg hh] at h
      by_cases hc : (strict = true) ∧ st.resource.event = false ∧
          pyUpper m ∈ st.resource.methodsAttr.getD ["GET", "PATCH", "DELETE"] ∧
          (st.resource.dataLayerPerms.lookup
            ("permission_" ++ pyLower m)).getD [] = []
      · rw [if_pos hc] at h; cases h
      · rw [if_neg hc] at h
        injection h with h1
        subst h1
        refine ⟨rfl, rfl, rfl, rfl, rfl, fun hs => ?_⟩
        by_cases hu : pyUpper m ∈
            st.resource.methodsAttr.getD ["GET", "PATCH", "DELETE"]
        · simp only [if_pos hu]
          exact lookup_setHandlerAttr_isSome _ _ _ _ hs
        · simp only [if_neg hu]
          exact lookup_setHandlerAttr_isSome _ _ _ _ hs

/-- The strict-mode refusal conditions survive the wiring of any other
method. -/
theorem strictTrigger_preserved (st st' : InstallState) (m m' : String)
    (htr : StrictTrigger st m)
    (h : permission_method true st m' = .ok st') : StrictTrigger st' m := by
  obtain ⟨h1, h2, h3, h4, h5⟩ := htr
  obtain ⟨pk, pm, pe, pd, _, ph⟩ :=
    permission_method_preserves true st st' m' (pyLower m) h
  refine ⟨by rw [pk]; exact h1, ph h2, by rw [pe]; exact h3, ?_,
    by rw [pd]; exact h5⟩
  rw [pk, pm]
  exact h4

/-- Under the refusal conditions, wiring the offending method raises the
`PermissionException` of line 150. -/
theorem permission_method_trigger_error (st : InstallState) (m : String)
    (htr : StrictTrigger st m) :
    ∃ msg, permission_method true st m = .error (.permissionException msg) := by
  obtain ⟨hkind, hh, he, hm, hp⟩ := htr
  unfold permission_method
  dsimp only
  have hh' : ¬ (st.resource.handlers.lookup (pyLower m)).isNone = true := by
    cases hmatch : st.resource.handlers.lookup (pyLower m) with
    | none => rw [hmatch] at hh; simp at hh
    | some hdl => simp [hmatch]
  rcases hkind with hk | hk
  · rw [hk]
    rw [hk] at hm
    dsimp only
    rw [if_neg hh']
    rw [if_pos ⟨rfl, he, hm, hp⟩]
    exact ⟨_, rfl⟩
  · rw [hk]
    rw [hk] at hm
    dsimp only
    rw [if_neg hh']
    rw [if_pos ⟨rfl, he, hm, hp⟩]
    exact ⟨_, rfl⟩

/-- Folding the wiring over a method list that contains a triggering
method fails. -/
theorem foldlM_permission_error (m : String) :
    ∀ (l : List String) (st : InstallState), m ∈ l → StrictTrigger st m →
    ∃ e, l.foldlM (permission_method true) st = .error e := by
  intro l
  induction l with
  | nil => intro st hm; simp at hm
  | cons a rest ih =>
    intro st hm htr
    rw [List.foldlM_cons]
    by_cases ha : a = m
    · subst ha
      obtain ⟨msg, herr⟩ := permission_method_trigger_error st a htr
      rw [herr]
      exact ⟨_, rfl⟩
    · cases hstep : permission_method true st a with
      | error e => exact ⟨e, rfl⟩
      | ok st1 =>
        simp only [except_bind_ok]
        have hm' : m ∈ rest := by
          rcases List.mem_cons.mp hm with hm' | hm'
          · exact absurd hm'.symm ha
          · exact hm'
        exact ih st1 hm' (strictTrigger_preserved st st1 m a htr hstep)

/-- Folding the wiring with strict mode off always succeeds. -/
theorem foldlM_permission_false_ok :
    ∀ (l : List String) (st : InstallState),
    ∃ st', l.foldlM (permission_method false) st = .ok st' := by
  intro l
  induction l with
  | nil => intro st; exact ⟨st, rfl⟩
  | cons a rest ih =>
    intro st
    obtain ⟨st1, h1⟩ := permission_method_false_ok st a
    rw [List.foldlM_cons, h1]
    simp only [except_bind_ok]
    exact ih st1

/-- **C7**: with `strict=True`, installing the routes of a list/detail
resource that has an enabled, non-event operation with no registered
permission classes raises a `PermissionException` during `after_route`;
with `strict=False` the same configuration installs without error. -/
theorem claim_C7 (st : InstallState) (m : String)
    (hinit : st.resource.inited = false)
    (hloop : m ∈ (match st.resource.kind with
      | ResourceKind.list => ["get", "post"]
      | ResourceKind.detail => ["get", "patch", "delete", "post"]
      | ResourceKind.other => ([] : List String)))
    (htr : StrictTrigger st m) :
    (∃ msg, after_route true st = .error (.permissionException msg)) ∧
    (∃ st', after_route false st = .ok st') := by
  have hinit' : ¬ st.resource.inited = true := by simp [hinit]
  constructor
  · unfold after_route
    rw [if_neg hinit']
    rcases htr.1 with hk | hk <;> rw [hk] <;> rw [hk] at hloop
    · obtain ⟨e, he⟩ := foldlM_permission_error m _ st hloop htr
      rw [he]
      cases e with
      | permissionException msg => exact ⟨msg, rfl⟩
    · obtain ⟨e, he⟩ := foldlM_permission_error m _ st hloop htr
      rw [he]
      cases e with
      | permissionException msg => exact ⟨msg, rfl⟩
  · unfold after_route
    rw [if_neg hinit']
    rcases htr.1 with hk | hk <;> rw [hk]
    · obtain ⟨st1, h1⟩ := foldlM_permission_false_ok ["get", "post"] st
      rw [h1]
      exact ⟨_, rfl⟩
    · obtain ⟨st1, h1⟩ :=
        foldlM_permission_false_ok ["get", "patch", "delete", "post"] st
      rw [h1]
      exact ⟨_, rfl⟩

/-- Witness for **C7** on `stC7` (a detail resource with a `get` handler
and no permission classes). -/
theorem claim_C7_witness :
    (∃ msg, after_route true stC7 = .error (.permissionException msg)) ∧
    (∃ st', after_route false stC7 = .ok st') :=
  claim_C7 stC7 "get" rfl (by decide)
    ⟨Or.inr rfl, by decide, rfl, by decide, rfl⟩

/-- **C9**: installation is idempotent — a completed `after_route` sets
the `_permission_plugin_inited` marker (or changed nothing at all), so a
second `after_route` returns the state unchanged: the wiring after two
installations equals the wiring after one. -/
theorem claim_C9 (strict : Bool) (st st' : InstallState)
    (h : after_route strict st = .ok st') :
    after_route strict st' = .ok st' := by
  unfold after_route at h ⊢
  by_cases hi : st.resource.inited = true
  · rw [if_pos hi] at h
    injection h with h1
    subst h1
    rw [if_pos hi]
  · rw [if_neg hi] at h
    cases hk : st.resource.kind with
    | other =>
      rw [hk] at h
      injection h with h1
      subst h1
      rw [if_neg hi, hk]
    | list =>
      rw [hk] at h
      cases hf : ["get", "post"].foldlM (permission_method strict) st with
      | error e => rw [hf] at h; simp only [Except.map] at h; cases h
      | ok st1 =>
        rw [hf] at h
        simp only [Except.map] at h
        injection h with h1
        subst h1
        rw [if_pos rfl]
    | detail =>
      rw [hk] at h
      cases hf : ["get", "patch", "delete", "post"].foldlM
          (permission_method strict) st with
      | error e => rw [hf] at h; simp only [Except.map] at h; cases h
      | ok st1 =>
        rw [hf] at h
        simp only [Except.map] at h
        injection h with h1
        subst h1
        rw [if_pos rfl]

/-- Witness for **C9**: a second non-strict installation on the concrete
detail resource returns the once-installed state unchanged. -/
theorem claim_C9_witness : after_route false stC9after = .ok stC9after :=
  claim_C9 false stC9 stC9after rfl

end ComboJsonApi
